import Mathlib

set_option maxHeartbeats 1000000

/-!
# Network Traffic Simulator — shallow embedding

A shallow embedding of the simulator backend: the simulation engine
(`network.js`: tick loop, per-link loads and backlog queues, cumulative
counters, control and administrative operations), the shortest-path router
(`utils/dijkstra.js`) and, where a claim concerns them, the request-validation
checks of the HTTP route layer (`routes/simulate.js`).

Modelling conventions:
* JS numbers that hold integers are modelled as `Int`.
* JS objects used as string-keyed dictionaries are modelled as insertion-
  ordered association lists (`JObj`): reads take the first matching entry,
  writes replace in place or append, mirroring JS object semantics.
* `Infinity` (and the unobservable `undefined`) in the Dijkstra distance map
  are modelled as `none`; all comparisons against them are `false` in JS
  (`undefined < x` is `false`, `Infinity < x` is `false`), which `ltInf`
  reproduces.
* The one source of randomness, `Math.random()` inside
  `getRandomDestination`, is modelled by an oracle `Nat → Nat`, one draw per
  generated packet; `Math.floor(Math.random() * n)` always lies in `[0, n)`,
  which the embedding reproduces with `% n`.
* `toFixed(2)` decimal formatting of utilization / packet-loss percentages is
  presentation only; the underlying exact value is kept as a `Rat`.
-/

/-- A JS object with string keys, modelled as an insertion-ordered
association list (JS objects preserve insertion order for string keys). -/
abbrev JObj (α : Type) := List (String × α)

/-- Property read `obj[k]`: the first (and, for a real JS object, only)
entry with key `k`; `none` models `undefined`. -/
def aGet {α : Type} : JObj α → String → Option α
  | [], _ => none
  | e :: m, k => if e.1 = k then some e.2 else aGet m k

/-- Read with a default, modelling patterns like `obj[k] || 0`. -/
def aGetD {α : Type} (m : JObj α) (k : String) (d : α) : α := (aGet m k).getD d

/-- Property write `obj[k] = v`: replaces the first entry with key `k` in
place (JS objects keep the key's original position), else appends. -/
def aSet {α : Type} : JObj α → String → α → JObj α
  | [], k, v => [(k, v)]
  | e :: m, k, v => if e.1 = k then (k, v) :: m else e :: aSet m k v

/-- Sum of all values of an integer-valued object (used for queue totals). -/
def valSum (m : JObj Int) : Int := (m.map (fun e => e.2)).sum

/-! ## Static topology and traffic data (`network.js` top of file) -/

/-- A link record `{ from, to, capacity }`; `from` is a Lean keyword, so the
field is named `src` here. -/
structure Link where
  src : String
  dst : String
  capacity : Int
deriving DecidableEq, Repr

/-- Source: `const nodes = ['A', 'B', 'C', 'D', 'E']`. -/
def nodes : List String := ["A", "B", "C", "D", "E"]

/-- Source: `const links = [...]` — the default topology (capacities are mutable via
`updateLinkCapacity`, so the simulation state carries its own copy). -/
def links0 : List Link :=
  [⟨"A", "B", 100⟩, ⟨"A", "C", 80⟩, ⟨"B", "D", 70⟩,
   ⟨"C", "D", 90⟩, ⟨"C", "E", 100⟩, ⟨"D", "E", 60⟩]

/-- The composite key `` `${link.from}-${link.dst}` `` used throughout. -/
def linkKey (l : Link) : String := l.src ++ "-" ++ l.dst

/-- Source: `const trafficRates = {...}` — per-slot per-node rates (values are
mutable via `updateTrafficRates`, so the state carries its own copy). -/
def trafficRates0 : JObj (JObj Int) :=
  [("08:00", [("A", 50), ("B", 30), ("C", 40), ("D", 20), ("E", 60)]),
   ("08:15", [("A", 55), ("B", 35), ("C", 45), ("D", 25), ("E", 65)]),
   ("08:30", [("A", 60), ("B", 40), ("C", 50), ("D", 30), ("E", 70)]),
   ("08:45", [("A", 55), ("B", 35), ("C", 45), ("D", 25), ("E", 65)])]

/-! ## Dijkstra (`utils/dijkstra.js`) -/

/-- Pointwise update of a string-keyed map modelled as a function
(`distances[k] = v`, `previous[k] = v`). -/
def fupd {β : Type} (f : String → β) (k : String) (v : β) : String → β :=
  fun x => if x = k then v else f x

/-- The JS `<` on distances where `none` stands for `Infinity`/`undefined`:
`Infinity < x` and `undefined < x` are `false`; `a < Infinity` is `true` for
finite `a`. -/
def ltInf : Option Nat → Option Nat → Bool
  | some a, some b => a < b
  | some _, none => true
  | none, _ => false

/-- The minimum-distance scan over the unvisited set (`for (const node of
unvisited)`, insertion order): tracks `currentNode` (initially `null` =
`none`) and `minDistance` (initially `Infinity` = `none`), updating on a
strict `<`. -/
def selectMin (unvisited : List String) (dist : String → Option Nat) : Option String :=
  (unvisited.foldl
    (fun acc node => if ltInf (dist node) acc.2 then (some node, dist node) else acc)
    ((none : Option String), (none : Option Nat))).1

/-- Adjacency list built from the links: each link contributes an edge in
both directions (`graph[from].push(to); graph[to].push(from)`, each with
weight 1, kept implicit since every weight is 1). -/
def buildGraph (links : List Link) : String → List String :=
  links.foldl
    (fun g l =>
      let g1 := fun x => if x = l.src then g x ++ [l.dst] else g x
      fun x => if x = l.dst then g1 x ++ [l.src] else g1 x)
    (fun _ => [])

/-- Relaxation of `currentNode`'s neighbours, in adjacency-list order, over
the already-shrunk unvisited set (the JS deletes `currentNode` before
relaxing). `newDistance` is `distances[currentNode] + 1`; if
`distances[currentNode]` were `Infinity` the JS comparison would be `false`,
matching `ltInf none _ = false` after `Option.map`. -/
def relaxNeighbors (cur : String) (unvisited : List String) (nbrs : List String)
    (dp : (String → Option Nat) × (String → Option String)) :
    (String → Option Nat) × (String → Option String) :=
  nbrs.foldl
    (fun dp nb =>
      if unvisited.contains nb then
        let newDistance := (dp.1 cur).map (fun x => x + 1)
        if ltInf newDistance (dp.1 nb) then
          (fupd dp.1 nb newDistance, fupd dp.2 nb (some cur))
        else dp
      else dp)
    dp

/-- The main `while (unvisited.size > 0)` loop. Each iteration deletes the
selected node, so the loop runs at most `unvisited.length` times; the fuel
argument makes that termination measure explicit. Loop-exit cases in order:
empty unvisited set; no selectable node (`currentNode === null` — a selected
node always has a finite distance, so the JS `distances[currentNode] ===
Infinity` break is subsumed); destination settled. -/
def dijkstraLoop (graph : String → List String) (dest : String) :
    Nat → List String → (String → Option Nat) → (String → Option String) →
    ((String → Option Nat) × (String → Option String))
  | 0, _, d, p => (d, p)
  | fuel + 1, unvisited, d, p =>
    if unvisited.length = 0 then (d, p)
    else
      match selectMin unvisited d with
      | none => (d, p)
      | some cur =>
        let unvisited' := unvisited.erase cur
        if cur = dest then (d, p)
        else
          let dp := relaxNeighbors cur unvisited' (graph cur) (d, p)
          dijkstraLoop graph dest fuel unvisited' dp.1 dp.2

/-- Path reconstruction: `while (currentNode !== null) { path.unshift(...);
currentNode = previous[currentNode] }`. Predecessor chains produced by the
loop are acyclic and of length at most the node count, so the fuel never
runs out on the inputs this embedding is applied to. -/
def buildPath : Nat → (String → Option String) → Option String → List String → List String
  | _, _, none, acc => acc
  | 0, _, some _, acc => acc
  | fuel + 1, prev, some c, acc => buildPath fuel prev (prev c) (c :: acc)

/-- The function `dijkstra(nodes, links, start, end)` — `end` is a Lean keyword, so the
parameter is named `dest`. Distances are initialised to `0` for the start
node and `Infinity` (`none`) for every other node; nodes outside the node
list have no entry (`undefined`, also `none` — the two are conflated, and
indistinguishable to every comparison performed). -/
def dijkstra (nodes : List String) (links : List Link) (start dest : String) :
    List String :=
  let dist0 : String → Option Nat :=
    fun n => if n ∈ nodes then (if n = start then some 0 else none) else none
  let prev0 : String → Option String := fun _ => none
  let graph := buildGraph links
  let dp := dijkstraLoop graph dest nodes.length nodes dist0 prev0
  let path := buildPath (nodes.length + 1) dp.2 (some dest) []
  if path.head? = some start then path else []

/-! ## Simulation state (`network.js`) -/

/-- Per-node statistics record kept in `networkState.nodeStats`. -/
structure NodeStat where
  packetsGenerated : Int
  packetsReceived : Int
  currentLoad : Int
deriving DecidableEq, Repr

/-- One entry of a packet's `route` array:
`{ from, to, transmitted, linkKey }`. -/
structure RouteHop where
  src : String
  dst : String
  transmitted : Bool
  hopKey : String
deriving DecidableEq, Repr

/-- One entry of `networkState.packetStats`. -/
structure Packet where
  id : String
  source : String
  destination : String
  path : List String
  route : List RouteHop
  transmitted : Bool
  timestamp : Int
deriving DecidableEq, Repr

/-- The whole mutable module state: `networkState` plus the two mutable
module-level tables (`links` capacities and `trafficRates` values, both
updated in place by the administrative operations). -/
structure Sim where
  links : List Link
  trafficRates : JObj (JObj Int)
  currentTime : String
  isRunning : Bool
  simulationStep : Int
  queues : JObj Int
  linkLoads : JObj Int
  packetStats : List Packet
  nodeStats : JObj NodeStat
  totalPacketsGenerated : Int
  totalPacketsTransmitted : Int
deriving Repr

/-- The module-load value of `networkState` (before any initialisation). -/
def networkState0 : Sim :=
  { links := links0, trafficRates := trafficRates0, currentTime := "08:00",
    isRunning := false, simulationStep := 0, queues := [], linkLoads := [],
    packetStats := [], nodeStats := [], totalPacketsGenerated := 0,
    totalPacketsTransmitted := 0 }

/-- The initialisation function of `network.js` (renamed: the source name ends in a word the
verification toolchain reserves): clears `queues`, `linkLoads`, `nodeStats`,
then zero-fills node statistics for each node and both per-link tables for
each link key. -/
def initNetwork (st : Sim) : Sim :=
  let ns := nodes.foldl (fun m n => aSet m n ⟨0, 0, 0⟩) ([] : JObj NodeStat)
  let ql := st.links.foldl
    (fun (ql : JObj Int × JObj Int) l =>
      (aSet ql.1 (linkKey l) 0, aSet ql.2 (linkKey l) 0))
    ([], [])
  { st with nodeStats := ns, linkLoads := ql.1, queues := ql.2 }

/-- The helper `getRandomDestination(source)`: filter the source out of the node list
and pick a uniformly random element. `r` is the oracle draw standing for
`Math.floor(Math.random() * availableNodes.length)`, which always lies in
`[0, length)`; the embedding reproduces that with `% length` (the `getD`
fallback is unreachable because the filtered list is never empty). -/
def getRandomDestination (source : String) (r : Nat) : String :=
  let availableNodes := nodes.filter (fun n => n != source)
  availableNodes.getD (r % availableNodes.length) "A"

/-- One step of `processQueuedPackets`'s `forEach`: for a link key with a
positive queue whose link exists, move `min(queue, capacity)` packets from
the queue to the cumulative transmitted counter. -/
def drainKey (st : Sim) (lk : String) : Sim :=
  if aGetD st.queues lk 0 > 0 then
    match st.links.find? (fun l => linkKey l == lk) with
    | some link =>
      let processable := min (aGetD st.queues lk 0) link.capacity
      { st with
        queues := aSet st.queues lk (aGetD st.queues lk 0 - processable),
        totalPacketsTransmitted := st.totalPacketsTransmitted + processable }
    | none => st
  else st

/-- The backlog drain `processQueuedPackets()`: iterate over the snapshot of
`Object.keys(networkState.queues)`. -/
def processQueuedPackets (st : Sim) : Sim :=
  (st.queues.map (fun e => e.1)).foldl drainKey st

/-- The function `updateLinkLoad(linkKey, packets)`: on overflow the load is capped at
capacity, the excess is queued and the call reports congestion (`false`). -/
def updateLinkLoad (st : Sim) (lk : String) (packets : Int) : Sim × Bool :=
  match st.links.find? (fun l => linkKey l == lk) with
  | none => (st, false)
  | some link =>
    let currentLoad := aGetD st.linkLoads lk 0
    let newLoad := currentLoad + packets
    if newLoad > link.capacity then
      let excess := newLoad - link.capacity
      ({ st with
          queues := aSet st.queues lk (aGetD st.queues lk 0 + excess),
          linkLoads := aSet st.linkLoads lk link.capacity }, false)
    else
      ({ st with linkLoads := aSet st.linkLoads lk newLoad }, true)

/-- The inner `for (let j = 0; j < path.length - 1; j++)` loop of
`simulateTick`: bill one packet to every link along the path, recording the
per-hop outcome and whether every hop succeeded. -/
def transmitHops (st : Sim) (path : List String) : Sim × List RouteHop × Bool :=
  (path.zip path.tail).foldl
    (fun acc h =>
      let key := h.1 ++ "-" ++ h.2
      let r := updateLinkLoad acc.1 key 1
      (r.1, acc.2.1 ++ [⟨h.1, h.2, r.2, key⟩], acc.2.2 && r.2))
    (st, [], true)

/-- The body of `simulateTick`'s per-packet loop for one generated packet
(source, oracle-chosen destination, loop index `i`): route it, skip it if
the path has fewer than two nodes, otherwise bill every hop, record the
packet, and credit destination/transmitted counters on full success. -/
def processPacket (st : Sim) (source destination : String) (i : Nat) : Sim :=
  let path := dijkstra nodes st.links source destination
  if path.length < 2 then st
  else
    let r := transmitHops st path
    let st1 := r.1
    let pkt : Packet :=
      { id := source ++ "-" ++ destination ++ "-" ++ toString i,
        source := source, destination := destination, path := path,
        route := r.2.1, transmitted := r.2.2, timestamp := st1.simulationStep }
    let st2 := { st1 with packetStats := st1.packetStats ++ [pkt] }
    if r.2.2 then
      { st2 with
        nodeStats := aSet st2.nodeStats destination
          (let s := (aGet st2.nodeStats destination).getD ⟨0, 0, 0⟩
           { s with packetsReceived := s.packetsReceived + 1 }),
        totalPacketsTransmitted := st2.totalPacketsTransmitted + 1 }
    else st2

/-- The body of the `for (let i = 0; i < rate; i++)` loop: draw one random
destination (the draw counter is the second component) and process one
packet. -/
def packetStep (rng : Nat → Nat) (source : String) (acc : Sim × Nat)
    (i : Nat) : Sim × Nat :=
  (processPacket acc.1 source (getRandomDestination source (rng acc.2)) i,
   acc.2 + 1)

/-- The `for (let i = 0; i < rate; i++)` loop: one oracle draw and one
packet per iteration (`k` is the running draw index fed to the oracle). A
nonpositive rate yields zero iterations, as in JS. -/
def runPackets (rng : Nat → Nat) (source : String) (rate : Int)
    (st : Sim) (k : Nat) : Sim × Nat :=
  (List.range rate.toNat).foldl (packetStep rng source) (st, k)

/-- The per-source bookkeeping at the top of each
`Object.entries(currentRates)` iteration: add the rate to the node's
cumulative generated count and set its current load to the rate. -/
def bumpGenerated (st : Sim) (source : String) (rate : Int) : Sim :=
  { st with
    nodeStats := aSet st.nodeStats source
      (let s := (aGet st.nodeStats source).getD ⟨0, 0, 0⟩
       { s with packetsGenerated := s.packetsGenerated + rate,
                currentLoad := rate }) }

/-- One `Object.entries(currentRates)` iteration of `simulateTick`: bump the
source node's cumulative generated count, set its current load to the rate,
then generate `rate` packets. -/
def processSource (rng : Nat → Nat) (source : String) (rate : Int)
    (st : Sim) (k : Nat) : Sim × Nat :=
  runPackets rng source rate (bumpGenerated st source rate) k

/-- The full `Object.entries(currentRates).forEach` loop, in insertion
order, also accumulating `tickPacketsGenerated`. -/
def processSources (rng : Nat → Nat) (entries : JObj Int) (st : Sim) :
    Sim × Int × Nat :=
  entries.foldl
    (fun (acc : Sim × Int × Nat) e =>
      let r := processSource rng e.1 e.2 acc.1 acc.2.2
      (r.1, acc.2.1 + e.2, r.2))
    (st, 0, 0)

/-- The main step `simulateTick()`: a missing rate table for the current slot aborts the
tick; otherwise clear this-tick link loads and packet history, drain the
backlog queues, generate this slot's traffic, and bump the cumulative
generated counter and the tick counter. -/
def simulateTick (rng : Nat → Nat) (st : Sim) : Sim :=
  match aGet st.trafficRates st.currentTime with
  | none => st
  | some currentRates =>
    let st1 := { st with linkLoads := [], packetStats := [] }
    let st2 := processQueuedPackets st1
    let r := processSources rng currentRates st2
    { r.1 with
      totalPacketsGenerated := r.1.totalPacketsGenerated + r.2.1,
      simulationStep := r.1.simulationStep + 1 }

/-! ## Statistics (`getNetworkStats`) -/

/-- One element of the reported `links` array. `utilization` is the exact
value whose `toFixed(2)` rendering the JS returns. -/
structure LinkStat where
  src : String
  dst : String
  capacity : Int
  currentLoad : Int
  utilization : Rat
  queueSize : Int
  congested : Bool
deriving Repr

/-- One element of the reported `nodes` array (`{ id, ...nodeStats[node] }`;
a node absent from `nodeStats` would spread no fields, modelled as zeros —
every state the engine reports on has all five nodes present). -/
structure NodeView where
  id : String
  packetsGenerated : Int
  packetsReceived : Int
  currentLoad : Int
deriving Repr

/-- The reported `summary` object; `packetLoss` is the exact value whose
`toFixed(2)` rendering the JS returns when generated is positive. -/
structure Summary where
  totalPacketsGenerated : Int
  totalPacketsTransmitted : Int
  packetLoss : Rat
  averageQueueSize : Rat
deriving Repr

/-- The full snapshot returned by `getNetworkStats()`. -/
structure Stats where
  currentTime : String
  simulationStep : Int
  isRunning : Bool
  nodes : List NodeView
  links : List LinkStat
  packets : List Packet
  summary : Summary
deriving Repr

/-- The reader `getNetworkStats()` — derives the snapshot from the current state and
performs no assignment to any state field; the embedding accordingly reads
`st` without producing a new one. -/
def getNetworkStats (st : Sim) : Stats :=
  let linkStats := st.links.map (fun link =>
    let lk := linkKey link
    let currentLoad := aGetD st.linkLoads lk 0
    let queueSize := aGetD st.queues lk 0
    { src := link.src, dst := link.dst, capacity := link.capacity,
      currentLoad := currentLoad,
      utilization := (currentLoad : Rat) / (link.capacity : Rat) * 100,
      queueSize := queueSize,
      congested := decide (currentLoad ≥ link.capacity) || decide (queueSize > 0)
      : LinkStat })
  { currentTime := st.currentTime,
    simulationStep := st.simulationStep,
    isRunning := st.isRunning,
    nodes := nodes.map (fun n =>
      let s := (aGet st.nodeStats n).getD ⟨0, 0, 0⟩
      { id := n, packetsGenerated := s.packetsGenerated,
        packetsReceived := s.packetsReceived, currentLoad := s.currentLoad }),
    links := linkStats,
    packets := st.packetStats,
    summary :=
      { totalPacketsGenerated := st.totalPacketsGenerated,
        totalPacketsTransmitted := st.totalPacketsTransmitted,
        packetLoss :=
          if st.totalPacketsGenerated > 0 then
            ((st.totalPacketsGenerated - st.totalPacketsTransmitted : Int) : Rat)
              / (st.totalPacketsGenerated : Rat) * 100
          else 0,
        averageQueueSize := (valSum st.queues : Rat) / (st.links.length : Rat) } }

/-- Wrapper: `getNetworkStats` in explicit state-passing form: the state component of
the result is the unchanged input state (the JS function performs no
mutation). -/
def getNetworkStatsOp (st : Sim) : Sim × Stats := (st, getNetworkStats st)

/-! ## Control and administrative operations -/

/-- Control: `startSimulation()` — raise the running flag and re-baseline the
per-run node/link state. -/
def startSimulation (st : Sim) : Sim :=
  initNetwork { st with isRunning := true }

/-- Control: `pauseSimulation()`. -/
def pauseSimulation (st : Sim) : Sim :=
  { st with isRunning := false }

/-- Control: `resetSimulation()` — stop, zero the tick counter, return to the first
time slot, zero both cumulative counters, and re-baseline node/link state.
(It does not touch `packetStats`.) -/
def resetSimulation (st : Sim) : Sim :=
  initNetwork
    { st with isRunning := false, simulationStep := 0, currentTime := "08:00",
              totalPacketsGenerated := 0, totalPacketsTransmitted := 0 }

/-- Admin: `updateTrafficRates(nodeId, newRate)` — requires the node to be known and
the current slot to have a rate table; performs no validation of the rate
value itself. -/
def updateTrafficRates (st : Sim) (nodeId : String) (newRate : Int) :
    Sim × Bool :=
  match aGet st.trafficRates st.currentTime with
  | some row =>
    if nodeId ∈ nodes then
      let tr := aSet st.trafficRates st.currentTime (aSet row nodeId newRate)
      ({ st with trafficRates := tr }, true)
    else (st, false)
  | none => (st, false)

/-- Helper for `links.find(l => l.from === from && l.to === to)` followed by in-place
mutation of the found link's capacity: replace the first match, `none` when
no link matches. -/
def setLinkCapacity : List Link → String → String → Int → Option (List Link)
  | [], _, _, _ => none
  | l :: ls, f, t, c =>
    if l.src = f ∧ l.dst = t then some ({ l with capacity := c } :: ls)
    else
      match setLinkCapacity ls f t c with
      | some ls' => some (l :: ls')
      | none => none

/-- Admin: `updateLinkCapacity(from, to, newCapacity)` — finds the link by exact
`(from, to)` and overwrites its capacity; performs no validation of the
capacity value itself. -/
def updateLinkCapacity (st : Sim) (f t : String) (newCapacity : Int) :
    Sim × Bool :=
  match setLinkCapacity st.links f t newCapacity with
  | some ls => ({ st with links := ls }, true)
  | none => (st, false)

/-- The JS `Array.prototype.indexOf`: index of the first occurrence, `-1`
when absent. -/
def jsIndexOf : List String → String → Int
  | [], _ => -1
  | x :: xs, t =>
    if x = t then 0
    else
      let r := jsIndexOf xs t
      if r = -1 then -1 else r + 1

/-- Clock: `advanceTimeSlot()` — step `currentTime` to the next key of
`trafficRates`, saturating at the last key (`indexOf` yields `-1` for an
unknown slot, in which case the JS moves to the first key). -/
def advanceTimeSlot (st : Sim) : Sim :=
  let timeSlots := st.trafficRates.map (fun e => e.1)
  let currentIndex : Int := jsIndexOf timeSlots st.currentTime
  if currentIndex < (timeSlots.length : Int) - 1 then
    { st with currentTime := timeSlots.getD (currentIndex + 1).toNat "" }
  else st

/-! ## Route-layer validation (`routes/simulate.js`) -/

/-- Outcome classes of the two administrative HTTP handlers. -/
inductive RouteResult where
  | ok
  | badRequest
  | notFound
deriving DecidableEq, Repr

/-- The `POST /traffic/:nodeId` handler: `if (!rate || rate < 0)` rejects a
missing rate, a zero rate (falsy) and a negative rate with a 400 before the
core mutator runs; otherwise the core's boolean is mapped to 200/404. -/
def routeUpdateTraffic (st : Sim) (nodeId : String) (rate : Option Int) :
    Sim × RouteResult :=
  match rate with
  | none => (st, RouteResult.badRequest)
  | some r =>
    if r = 0 ∨ r < 0 then (st, RouteResult.badRequest)
    else
      let u := updateTrafficRates st nodeId r
      (u.1, if u.2 then RouteResult.ok else RouteResult.notFound)

/-- The `POST /link/:from/:to/capacity` handler: `if (!capacity || capacity
<= 0)` rejects a missing or nonpositive capacity with a 400 before the core
mutator runs; otherwise the core's boolean is mapped to 200/404. -/
def routeUpdateCapacity (st : Sim) (f t : String) (capacity : Option Int) :
    Sim × RouteResult :=
  match capacity with
  | none => (st, RouteResult.badRequest)
  | some c =>
    if c = 0 ∨ c ≤ 0 then (st, RouteResult.badRequest)
    else
      let u := updateLinkCapacity st f t c
      (u.1, if u.2 then RouteResult.ok else RouteResult.notFound)

/-! ## Derived notions used by the verification -/

/-- The canonical initial state of a run: the module state after
`resetSimulation()` (equivalently, after initialisation with default
capacities and the default nonnegative rate tables). -/
def initState : Sim := resetSimulation networkState0

/-- A sequence of `simulateTick` calls from a state, tick `j` drawing its
destinations through oracle `rngs j`. -/
def runTicks (rngs : Nat → Nat → Nat) : Nat → Sim → Sim
  | 0, st => st
  | n + 1, st => runTicks rngs n (simulateTick (rngs n) st)

/-- Iterated application (used to state slot-advance saturation). -/
def applyN {α : Type} (f : α → α) : Nat → α → α
  | 0, a => a
  | n + 1, a => applyN f n (f a)

/-- Undirected adjacency of the default topology: some default link joins
`x` and `y` in either orientation. -/
def adjB (x y : String) : Bool :=
  links0.any (fun l => (l.src == x && l.dst == y) || (l.src == y && l.dst == x))

/-- A walk in the undirected default routing graph: a nonempty node
sequence whose consecutive nodes are adjacent. -/
def isWalkB : List String → Bool
  | [] => false
  | [_] => true
  | x :: y :: r => adjB x y && isWalkB (y :: r)

/-- One breadth step: everything in `S` plus every node adjacent to `S`. -/
def stepSet (S : List String) : List String :=
  S ++ nodes.filter (fun y => S.any (fun x => adjB x y))

/-- Nodes reachable from `s` by walks of at most `k` edges. -/
def reachN : Nat → String → List String
  | 0, s => [s]
  | k + 1, s => stepSet (reachN k s)

/-! ## Association-list lemmas -/

theorem aGet_aSet_self {α : Type} (m : JObj α) (k : String) (v : α) :
    aGet (aSet m k v) k = some v := by
  induction m with
  | nil => simp [aSet, aGet]
  | cons e m ih =>
    by_cases h : e.1 = k
    · simp [aSet, aGet, h]
    · simp [aSet, aGet, h, ih]

theorem aGet_aSet_ne {α : Type} (m : JObj α) (k k' : String) (v : α)
    (h : k' ≠ k) : aGet (aSet m k v) k' = aGet m k' := by
  have h' : ¬ k = k' := fun hh => h hh.symm
  induction m with
  | nil => simp [aSet, aGet, h']
  | cons e m ih =>
    by_cases he : e.1 = k
    · have hne : ¬ e.1 = k' := by rw [he]; exact h'
      rw [aSet, if_pos he, aGet, if_neg h', aGet, if_neg hne]
    · rw [aSet, if_neg he]
      by_cases he' : e.1 = k'
      · rw [aGet, if_pos he', aGet, if_pos he']
      · rw [aGet, if_neg he', aGet, if_neg he', ih]

theorem aGetD_aSet_self {α : Type} (m : JObj α) (k : String) (v d : α) :
    aGetD (aSet m k v) k d = v := by
  simp [aGetD, aGet_aSet_self]

theorem aGetD_aSet_ne {α : Type} (m : JObj α) (k k' : String) (v d : α)
    (h : k' ≠ k) : aGetD (aSet m k v) k' d = aGetD m k' d := by
  simp [aGetD, aGet_aSet_ne m k k' v h]

theorem aGet_mem {α : Type} (m : JObj α) (k : String) (v : α)
    (h : aGet m k = some v) : (k, v) ∈ m := by
  induction m with
  | nil => simp [aGet] at h
  | cons e m ih =>
    by_cases he : e.1 = k
    · rw [aGet, if_pos he] at h
      injection h with hv
      have : (k, v) = e := by
        rw [Prod.ext_iff]
        exact ⟨he.symm, hv.symm⟩
      rw [this]
      exact List.mem_cons_self _ _
    · rw [aGet, if_neg he] at h
      exact List.mem_cons_of_mem _ (ih h)

theorem aGetD_prop {α : Type} (P : α → Prop) (m : JObj α) (k : String) (d : α)
    (hm : ∀ e ∈ m, P e.2) (hd : P d) : P (aGetD m k d) := by
  rw [aGetD]
  cases heq : aGet m k with
  | none => exact hd
  | some v => exact hm _ (aGet_mem m k v heq)

theorem aSet_forall_values {α : Type} (P : α → Prop) (m : JObj α)
    (k : String) (v : α) (hm : ∀ e ∈ m, P e.2) (hv : P v) :
    ∀ e ∈ aSet m k v, P e.2 := by
  induction m with
  | nil => simpa [aSet] using hv
  | cons e m ih =>
    by_cases he : e.1 = k
    · rw [aSet, if_pos he]
      intro x hx
      rcases List.mem_cons.mp hx with hx | hx
      · simpa [hx] using hv
      · exact hm _ (List.mem_cons_of_mem _ hx)
    · rw [aSet, if_neg he]
      intro x hx
      rcases List.mem_cons.mp hx with hx | hx
      · exact hx ▸ hm _ (List.mem_cons_self _ _)
      · exact ih (fun y hy => hm _ (List.mem_cons_of_mem _ hy)) _ hx

theorem keys_aSet {α : Type} (m : JObj α) (k : String) (v : α) :
    (aSet m k v).map (fun e => e.1) =
      if k ∈ m.map (fun e => e.1) then m.map (fun e => e.1)
      else m.map (fun e => e.1) ++ [k] := by
  induction m with
  | nil => simp [aSet]
  | cons e m ih =>
    by_cases he : e.1 = k
    · simp [aSet, he]
    · have : ¬ k = e.1 := fun hh => he hh.symm
      by_cases hk : k ∈ m.map (fun e => e.1)
      · simp [aSet, he, ih, hk, this]
      · simp [aSet, he, ih, hk, this]

theorem nodup_keys_aSet {α : Type} (m : JObj α) (k : String) (v : α)
    (h : (m.map (fun e => e.1)).Nodup) :
    ((aSet m k v).map (fun e => e.1)).Nodup := by
  rw [keys_aSet]
  by_cases hk : k ∈ m.map (fun e => e.1)
  · simpa [hk] using h
  · rw [if_neg hk]
    refine List.Nodup.append h (List.nodup_singleton k) ?_
    intro x hx hx'
    rcases List.mem_singleton.mp hx' with rfl
    exact hk hx

theorem valSum_aSet (m : JObj Int) (k : String) (v : Int) :
    valSum (aSet m k v) = valSum m - aGetD m k 0 + v := by
  induction m with
  | nil => simp [aSet, valSum, aGetD, aGet]
  | cons e m ih =>
    by_cases he : e.1 = k
    · simp [aSet, he, valSum, aGetD, aGet]
      ring
    · have : ¬ e.1 = k := he
      simp [aSet, this, valSum, aGetD, aGet] at ih ⊢
      omega

theorem valSum_nonneg (m : JObj Int) (h : ∀ e ∈ m, 0 ≤ e.2) :
    0 ≤ valSum m := by
  induction m with
  | nil => simp [valSum]
  | cons e m ih =>
    have h1 := h e (List.mem_cons_self _ _)
    have h2 := ih (fun y hy => h y (List.mem_cons_of_mem _ hy))
    simp only [valSum, List.map_cons, List.sum_cons] at h2 ⊢
    omega

/-! ## Characterisation of `updateLinkLoad` -/

theorem UL_missing (st : Sim) (lk : String) (p : Int)
    (hf : st.links.find? (fun l => linkKey l == lk) = none) :
    updateLinkLoad st lk p = (st, false) := by
  simp [updateLinkLoad, hf]

theorem UL_congested (st : Sim) (lk : String) (p : Int) (link : Link)
    (hf : st.links.find? (fun l => linkKey l == lk) = some link)
    (hc : link.capacity < aGetD st.linkLoads lk 0 + p) :
    updateLinkLoad st lk p =
      ({ st with
          queues := aSet st.queues lk
            (aGetD st.queues lk 0 + (aGetD st.linkLoads lk 0 + p - link.capacity)),
          linkLoads := aSet st.linkLoads lk link.capacity }, false) := by
  simp only [updateLinkLoad, hf]
  rw [if_pos hc]

theorem UL_ok (st : Sim) (lk : String) (p : Int) (link : Link)
    (hf : st.links.find? (fun l => linkKey l == lk) = some link)
    (hc : aGetD st.linkLoads lk 0 + p ≤ link.capacity) :
    updateLinkLoad st lk p =
      ({ st with linkLoads := aSet st.linkLoads lk (aGetD st.linkLoads lk 0 + p) },
       true) := by
  simp only [updateLinkLoad, hf]
  rw [if_neg (by omega)]

/-! ## Claim C2 — load never exceeds capacity in `updateLinkLoad` -/

/-- C2: for every link and every `updateLinkLoad` (`consumeCapacity`) call,
the recorded current-tick load never exceeds the link's capacity at the end
of the call; when adding the requested amount would exceed capacity the load
field is set to exactly the capacity, the excess is added to that link's
queue and the call returns `false` (congestion); otherwise the load
increases by the amount and the call returns `true`. -/
theorem C2_load_capped (st : Sim) (lk : String) (p : Int) (link : Link)
    (hf : st.links.find? (fun l => linkKey l == lk) = some link) :
    aGetD (updateLinkLoad st lk p).1.linkLoads lk 0 ≤ link.capacity ∧
    (aGetD st.linkLoads lk 0 + p > link.capacity →
      (updateLinkLoad st lk p).2 = false ∧
      aGetD (updateLinkLoad st lk p).1.linkLoads lk 0 = link.capacity ∧
      aGetD (updateLinkLoad st lk p).1.queues lk 0 =
        aGetD st.queues lk 0 + (aGetD st.linkLoads lk 0 + p - link.capacity)) ∧
    (aGetD st.linkLoads lk 0 + p ≤ link.capacity →
      (updateLinkLoad st lk p).2 = true ∧
      aGetD (updateLinkLoad st lk p).1.linkLoads lk 0 =
        aGetD st.linkLoads lk 0 + p ∧
      (updateLinkLoad st lk p).1.queues = st.queues) := by
  by_cases hc : aGetD st.linkLoads lk 0 + p > link.capacity
  · rw [UL_congested st lk p link hf hc]
    refine ⟨?_, fun _ => ⟨rfl, ?_, ?_⟩, fun hle => absurd hle (by omega)⟩
    · simp [aGetD_aSet_self]
    · simp [aGetD_aSet_self]
    · simp [aGetD_aSet_self]
  · have hle : aGetD st.linkLoads lk 0 + p ≤ link.capacity := by omega
    rw [UL_ok st lk p link hf hle]
    refine ⟨?_, fun hgt => absurd hgt hc, fun _ => ⟨rfl, ?_, rfl⟩⟩
    · simpa [aGetD_aSet_self] using hle
    · simp [aGetD_aSet_self]

/-- Witness for C2 at a concrete call: billing one packet to link `A-B` of
the freshly initialised state. -/
theorem C2_load_capped_witness :
    aGetD (updateLinkLoad initState "A-B" 1).1.linkLoads "A-B" 0 ≤
      (100 : Int) :=
  (C2_load_capped initState "A-B" 1 ⟨"A", "B", 100⟩ (by decide)).1

/-! ## Claim C9 — `getNetworkStats` is a pure read -/

/-- C9: `getNetworkStats` does not mutate the simulation state (the state
component of its state-passing form is the unchanged input), and two
consecutive calls with no intervening operation return identical
snapshots. -/
theorem C9_getStats_pure (st : Sim) :
    (getNetworkStatsOp st).1 = st ∧
    (getNetworkStatsOp ((getNetworkStatsOp st).1)).2 = (getNetworkStatsOp st).2 :=
  ⟨rfl, rfl⟩

/-! ## Claim C8 — `startSimulation` frame -/

theorem initNetwork_queues_zero (st : Sim) :
    (∀ e ∈ (initNetwork st).linkLoads, e.2 = (0 : Int)) ∧
    (∀ e ∈ (initNetwork st).queues, e.2 = (0 : Int)) := by
  have main : ∀ (ls : List Link) (acc : JObj Int × JObj Int),
      (∀ e ∈ acc.1, e.2 = (0 : Int)) → (∀ e ∈ acc.2, e.2 = (0 : Int)) →
      (∀ e ∈ (ls.foldl
          (fun (ql : JObj Int × JObj Int) l =>
            (aSet ql.1 (linkKey l) 0, aSet ql.2 (linkKey l) 0)) acc).1,
        e.2 = (0 : Int)) ∧
      (∀ e ∈ (ls.foldl
          (fun (ql : JObj Int × JObj Int) l =>
            (aSet ql.1 (linkKey l) 0, aSet ql.2 (linkKey l) 0)) acc).2,
        e.2 = (0 : Int)) := by
    intro ls
    induction ls with
    | nil => intro acc h1 h2; exact ⟨h1, h2⟩
    | cons l ls ih =>
      intro acc h1 h2
      exact ih _ (aSet_forall_values (fun x => x = (0 : Int)) _ _ _ h1 rfl)
        (aSet_forall_values (fun x => x = (0 : Int)) _ _ _ h2 rfl)
  exact main st.links ([], []) (by simp) (by simp)

/-- C8: `startSimulation` sets the running flag and zeroes the per-run link
baseline (all link loads, all queues), while leaving both cumulative
counters, the tick counter and the selected time slot unchanged. -/
theorem C8_start_frame (st : Sim) :
    (startSimulation st).isRunning = true ∧
    (∀ e ∈ (startSimulation st).linkLoads, e.2 = (0 : Int)) ∧
    (∀ e ∈ (startSimulation st).queues, e.2 = (0 : Int)) ∧
    (startSimulation st).totalPacketsGenerated = st.totalPacketsGenerated ∧
    (startSimulation st).totalPacketsTransmitted = st.totalPacketsTransmitted ∧
    (startSimulation st).simulationStep = st.simulationStep ∧
    (startSimulation st).currentTime = st.currentTime := by
  refine ⟨rfl, ?_, ?_, rfl, rfl, rfl, rfl⟩
  · exact (initNetwork_queues_zero _).1
  · exact (initNetwork_queues_zero _).2

/-- Witness for C8 at the module-load state. -/
theorem C8_start_frame_witness :
    (startSimulation networkState0).isRunning = true ∧
    (∀ e ∈ (startSimulation networkState0).queues, e.2 = (0 : Int)) ∧
    (startSimulation networkState0).totalPacketsGenerated =
      networkState0.totalPacketsGenerated :=
  ⟨(C8_start_frame networkState0).1, (C8_start_frame networkState0).2.2.1,
   (C8_start_frame networkState0).2.2.2.1⟩

/-! ## Claim C7 — `advanceTimeSlot` saturates at the last slot -/

theorem advance_frame (st : Sim) :
    (advanceTimeSlot st).trafficRates = st.trafficRates := by
  rw [advanceTimeSlot]
  split
  · rfl
  · rfl

theorem advance_from_0800 (st : Sim) (h : st.trafficRates = trafficRates0)
    (hc : st.currentTime = "08:00") :
    (advanceTimeSlot st).currentTime = "08:15" := by
  simp [advanceTimeSlot, h, hc, jsIndexOf, trafficRates0]

theorem advance_from_0815 (st : Sim) (h : st.trafficRates = trafficRates0)
    (hc : st.currentTime = "08:15") :
    (advanceTimeSlot st).currentTime = "08:30" := by
  simp [advanceTimeSlot, h, hc, jsIndexOf, trafficRates0]

theorem advance_from_0830 (st : Sim) (h : st.trafficRates = trafficRates0)
    (hc : st.currentTime = "08:30") :
    (advanceTimeSlot st).currentTime = "08:45" := by
  simp [advanceTimeSlot, h, hc, jsIndexOf, trafficRates0]

theorem advance_from_0845 (st : Sim) (h : st.trafficRates = trafficRates0)
    (hc : st.currentTime = "08:45") :
    advanceTimeSlot st = st := by
  rw [advanceTimeSlot]
  rw [if_neg]
  simp [h, hc, jsIndexOf, trafficRates0]

theorem applyN_add {α : Type} (f : α → α) (m n : Nat) (a : α) :
    applyN f (m + n) a = applyN f n (applyN f m a) := by
  induction m generalizing a with
  | zero => simp [applyN]
  | succ m ih =>
    have : m + 1 + n = (m + n) + 1 := by omega
    rw [this, applyN, applyN, ih]

theorem applyN_fix_0845 (k : Nat) (st : Sim)
    (h : st.trafficRates = trafficRates0) (hc : st.currentTime = "08:45") :
    (applyN advanceTimeSlot k st).currentTime = "08:45" := by
  induction k generalizing st with
  | zero => simpa [applyN] using hc
  | succ k ih =>
    rw [applyN, advance_from_0845 st h hc]
    exact ih st h hc

theorem applyN4_reaches_0845 (st : Sim) (h : st.trafficRates = trafficRates0)
    (hmem : st.currentTime ∈ trafficRates0.map (fun e => e.1)) :
    (applyN advanceTimeSlot 4 st).currentTime = "08:45" ∧
    (applyN advanceTimeSlot 4 st).trafficRates = trafficRates0 := by
  have hfr1 : (advanceTimeSlot st).trafficRates = trafficRates0 := by
    rw [advance_frame]; exact h
  have hfr2 : (advanceTimeSlot (advanceTimeSlot st)).trafficRates = trafficRates0 := by
    rw [advance_frame]; exact hfr1
  have hfr3 : (advanceTimeSlot (advanceTimeSlot (advanceTimeSlot st))).trafficRates
      = trafficRates0 := by
    rw [advance_frame]; exact hfr2
  have hfr4 : (advanceTimeSlot (advanceTimeSlot (advanceTimeSlot
      (advanceTimeSlot st)))).trafficRates = trafficRates0 := by
    rw [advance_frame]; exact hfr3
  have h4 : applyN advanceTimeSlot 4 st =
      advanceTimeSlot (advanceTimeSlot (advanceTimeSlot (advanceTimeSlot st))) := by
    simp [applyN]
  rw [h4]
  refine ⟨?_, hfr4⟩
  simp only [trafficRates0, List.map_cons, List.mem_cons] at hmem
  rcases hmem with hc | hc | hc | hc | hc
  · have s1 := advance_from_0800 st h hc
    have s2 := advance_from_0815 _ hfr1 s1
    have s3 := advance_from_0830 _ hfr2 s2
    rw [advance_from_0845 _ hfr3 s3]
    exact s3
  · have s2 := advance_from_0815 st h hc
    have s3 := advance_from_0830 _ hfr1 s2
    rw [advance_from_0845 _ hfr2 s3, advance_from_0845 _ hfr2 s3]
    exact s3
  · have s3 := advance_from_0830 st h hc
    rw [advance_from_0845 _ hfr1 s3, advance_from_0845 _ hfr1 s3,
        advance_from_0845 _ hfr1 s3]
    exact s3
  · rw [advance_from_0845 st h hc, advance_from_0845 st h hc,
        advance_from_0845 st h hc, advance_from_0845 st h hc]
    exact hc
  · cases hc

/-- C7: `advanceTimeSlot` moves the current slot to the next one in the
fixed ordered slot list and saturates at the last slot: at `08:45` it is a
complete no-op, and `N ≥ 4` applications from any slot in the list leave
the slot at `08:45`. -/
theorem C7_advance_saturates :
    (∀ st : Sim, st.trafficRates = trafficRates0 →
      (st.currentTime = "08:00" → (advanceTimeSlot st).currentTime = "08:15") ∧
      (st.currentTime = "08:15" → (advanceTimeSlot st).currentTime = "08:30") ∧
      (st.currentTime = "08:30" → (advanceTimeSlot st).currentTime = "08:45") ∧
      (st.currentTime = "08:45" → advanceTimeSlot st = st)) ∧
    (∀ st : Sim, st.trafficRates = trafficRates0 →
      st.currentTime ∈ trafficRates0.map (fun e => e.1) →
      ∀ n : Nat, 4 ≤ n → (applyN advanceTimeSlot n st).currentTime = "08:45") := by
  constructor
  · intro st h
    exact ⟨advance_from_0800 st h, advance_from_0815 st h,
           advance_from_0830 st h, advance_from_0845 st h⟩
  · intro st h hmem n hn
    obtain ⟨k, rfl⟩ : ∃ k, n = 4 + k := ⟨n - 4, by omega⟩
    rw [applyN_add]
    obtain ⟨h45, hfr⟩ := applyN4_reaches_0845 st h hmem
    exact applyN_fix_0845 k _ hfr h45

/-- Witness for C7: five applications from the module-load state leave the
slot at the last one. -/
theorem C7_advance_saturates_witness :
    (applyN advanceTimeSlot 5 networkState0).currentTime = "08:45" :=
  (C7_advance_saturates).2 networkState0 rfl (by decide) 5 (by decide)

/-! ## Claim C5 — administrative validation -/

/-- Counterexample to C5 as stated: the core mutators accept invalid values
and mutate. `updateLinkCapacity` with the nonpositive capacity `0` reports
success and changes the link set, and `updateTrafficRates` with the negative
rate `-5` reports success and changes the rate table. -/
theorem C5_core_accepts_invalid :
    ((updateLinkCapacity initState "A" "B" 0).2 = true ∧
     (updateLinkCapacity initState "A" "B" 0).1.links ≠ initState.links) ∧
    ((updateTrafficRates initState "A" (-5)).2 = true ∧
     (updateTrafficRates initState "A" (-5)).1.trafficRates ≠
       initState.trafficRates) := by
  refine ⟨⟨by decide, by decide⟩, ⟨by decide, by decide⟩⟩

theorem setLinkCapacity_none (ls : List Link) (f t : String) (c : Int)
    (h : ∀ l ∈ ls, ¬(l.src = f ∧ l.dst = t)) :
    setLinkCapacity ls f t c = none := by
  induction ls with
  | nil => rfl
  | cons l ls ih =>
    rw [setLinkCapacity, if_neg (h l (List.mem_cons_self _ _))]
    rw [ih (fun x hx => h x (List.mem_cons_of_mem _ hx))]

/-- C5 (amended): value validation lives in the HTTP route layer, not the
core. The route handlers reject a nonpositive rate or capacity with a 400
before the core mutator runs, leaving the state unchanged, while the core
mutators report `false` and leave the state unchanged exactly when the node
or the `(from, to)` link does not exist. -/
theorem C5_validation_in_routes :
    (∀ (st : Sim) (nodeId : String) (r : Int), r ≤ 0 →
      routeUpdateTraffic st nodeId (some r) = (st, RouteResult.badRequest)) ∧
    (∀ (st : Sim) (f t : String) (c : Int), c ≤ 0 →
      routeUpdateCapacity st f t (some c) = (st, RouteResult.badRequest)) ∧
    (∀ (st : Sim) (nodeId : String) (r : Int), nodeId ∉ nodes →
      updateTrafficRates st nodeId r = (st, false)) ∧
    (∀ (st : Sim) (f t : String) (c : Int),
      (∀ l ∈ st.links, ¬(l.src = f ∧ l.dst = t)) →
      updateLinkCapacity st f t c = (st, false)) := by
  refine ⟨?_, ?_, ?_, ?_⟩
  · intro st nodeId r hr
    rw [routeUpdateTraffic, if_pos (by omega)]
  · intro st f t c hc
    rw [routeUpdateCapacity, if_pos (Or.inr hc)]
  · intro st nodeId r hn
    rw [updateTrafficRates]
    cases aGet st.trafficRates st.currentTime with
    | none => rfl
    | some row => simp [hn]
  · intro st f t c h
    rw [updateLinkCapacity, setLinkCapacity_none st.links f t c h]

/-- Witness for C5 (amended) at concrete inputs: a negative rate is
rejected by the route layer, and unknown targets make the core mutators
report `false` without mutating. -/
theorem C5_validation_in_routes_witness :
    routeUpdateTraffic initState "A" (some (-3)) =
      (initState, RouteResult.badRequest) ∧
    routeUpdateCapacity initState "A" "B" (some 0) =
      (initState, RouteResult.badRequest) ∧
    updateTrafficRates initState "Z" 7 = (initState, false) ∧
    updateLinkCapacity initState "B" "A" 55 = (initState, false) :=
  ⟨(C5_validation_in_routes).1 initState "A" (-3) (by decide),
   (C5_validation_in_routes).2.1 initState "A" "B" 0 (by decide),
   (C5_validation_in_routes).2.2.1 initState "Z" 7 (by decide),
   (C5_validation_in_routes).2.2.2 initState "B" "A" 55 (by decide)⟩

/-! ## Claim C4 — `resetSimulation` -/

/-- A state reachable from the initial state by administrative rate updates
(node A's rate set to 1, every other rate set to 0), used to produce a
one-packet tick cheaply. -/
def rateOneState : Sim :=
  (updateTrafficRates
    ((updateTrafficRates
      ((updateTrafficRates
        ((updateTrafficRates
          ((updateTrafficRates initState "A" 1).1) "B" 0).1) "C" 0).1)
        "D" 0).1) "E" 0).1

/-- Counterexample to C4 as stated: run one tick (generating one packet)
from a reachable state, then `resetSimulation()`; the packet history
reported by `getNetworkStats()` is not empty — `resetSimulation` never
clears `packetStats`. -/
theorem C4_reset_keeps_history :
    (getNetworkStats
      (resetSimulation (simulateTick (fun _ => 0) rateOneState))).packets ≠
      ([] : List Packet) := by
  decide

theorem initNetwork_nodeStats_zero (st : Sim) :
    ∀ e ∈ (initNetwork st).nodeStats, e.2 = (⟨0, 0, 0⟩ : NodeStat) := by
  have main : ∀ (ns : List String) (acc : JObj NodeStat),
      (∀ e ∈ acc, e.2 = (⟨0, 0, 0⟩ : NodeStat)) →
      ∀ e ∈ ns.foldl (fun m n => aSet m n ⟨0, 0, 0⟩) acc,
        e.2 = (⟨0, 0, 0⟩ : NodeStat) := by
    intro ns
    induction ns with
    | nil => intro acc h; exact h
    | cons n ns ih =>
      intro acc h
      exact ih _ (aSet_forall_values (fun x => x = (⟨0, 0, 0⟩ : NodeStat)) _ _ _ h rfl)
  exact main nodes [] (by simp)

/-- C4 (amended): `resetSimulation()` followed by `getNetworkStats()`
reports tick counter 0, the first time slot, cumulative counters 0, a
stopped flag, all per-link queues and loads 0 and all per-node statistics 0
— but the recent packet history is NOT cleared: the snapshot still carries
the pre-reset `packetStats` verbatim. -/
theorem C4_reset_reports_initial (st : Sim) :
    (getNetworkStats (resetSimulation st)).simulationStep = 0 ∧
    (getNetworkStats (resetSimulation st)).currentTime = "08:00" ∧
    (getNetworkStats (resetSimulation st)).isRunning = false ∧
    (getNetworkStats (resetSimulation st)).summary.totalPacketsGenerated = 0 ∧
    (getNetworkStats (resetSimulation st)).summary.totalPacketsTransmitted = 0 ∧
    (getNetworkStats (resetSimulation st)).summary.packetLoss = 0 ∧
    (∀ ls ∈ (getNetworkStats (resetSimulation st)).links,
      ls.queueSize = 0 ∧ ls.currentLoad = 0) ∧
    (∀ nv ∈ (getNetworkStats (resetSimulation st)).nodes,
      nv.packetsGenerated = 0 ∧ nv.packetsReceived = 0 ∧ nv.currentLoad = 0) ∧
    (getNetworkStats (resetSimulation st)).packets = st.packetStats := by
  have hq := (initNetwork_queues_zero
    { st with isRunning := false, simulationStep := 0, currentTime := "08:00",
              totalPacketsGenerated := 0, totalPacketsTransmitted := 0 })
  have hn := initNetwork_nodeStats_zero
    { st with isRunning := false, simulationStep := 0, currentTime := "08:00",
              totalPacketsGenerated := 0, totalPacketsTransmitted := 0 }
  have hg : (resetSimulation st).totalPacketsGenerated = 0 := rfl
  refine ⟨rfl, rfl, rfl, rfl, rfl, by simp [getNetworkStats, hg], ?_, ?_, rfl⟩
  · intro ls hls
    rw [getNetworkStats] at hls
    simp only [List.mem_map] at hls
    obtain ⟨link, _, rfl⟩ := hls
    constructor
    · exact aGetD_prop (fun x => x = (0 : Int)) _ _ _ hq.2 rfl
    · exact aGetD_prop (fun x => x = (0 : Int)) _ _ _ hq.1 rfl
  · intro nv hnv
    rw [getNetworkStats] at hnv
    simp only [List.mem_map] at hnv
    obtain ⟨n, _, rfl⟩ := hnv
    have hz : aGetD (resetSimulation st).nodeStats n ⟨0, 0, 0⟩ =
        (⟨0, 0, 0⟩ : NodeStat) :=
      aGetD_prop (fun x => x = (⟨0, 0, 0⟩ : NodeStat)) _ _ _ hn rfl
    rw [aGetD] at hz
    rw [hz]
    exact ⟨rfl, rfl, rfl⟩

/-- Witness for C4 (amended) at the post-tick state of the counterexample
scenario. -/
theorem C4_reset_reports_initial_witness :
    (getNetworkStats
      (resetSimulation (simulateTick (fun _ => 0) rateOneState))).simulationStep
      = 0 ∧
    (getNetworkStats
      (resetSimulation (simulateTick (fun _ => 0) rateOneState))).packets =
      (simulateTick (fun _ => 0) rateOneState).packetStats :=
  ⟨(C4_reset_reports_initial (simulateTick (fun _ => 0) rateOneState)).1,
   (C4_reset_reports_initial
      (simulateTick (fun _ => 0) rateOneState)).2.2.2.2.2.2.2.2⟩

/-! ## Claim C6 — `dijkstra` returns hop-count-shortest paths -/

/-- Decidable bundle for one source/destination pair: the returned path is
a walk from `s` to `d`, and no walk can be shorter (via `reachN`). -/
def checkPair (s d : String) : Bool :=
  let p := dijkstra nodes links0 s d
  isWalkB p && decide (p.head? = some s) && decide (p.getLast? = some d) &&
    (decide (p.length ≤ 1) || !(decide (d ∈ reachN (p.length - 2) s)))

theorem adjB_mem_nodes (x y : String) (h : adjB x y = true) :
    x ∈ nodes ∧ y ∈ nodes := by
  rw [adjB, List.any_eq_true] at h
  obtain ⟨l, hl, hcond⟩ := h
  have hend : ∀ l ∈ links0, l.src ∈ nodes ∧ l.dst ∈ nodes := by decide
  have := hend l hl
  simp only [Bool.or_eq_true, Bool.and_eq_true, beq_iff_eq] at hcond
  rcases hcond with ⟨h1, h2⟩ | ⟨h1, h2⟩
  · exact ⟨h1 ▸ this.1, h2 ▸ this.2⟩
  · exact ⟨h2 ▸ this.2, h1 ▸ this.1⟩

theorem mem_stepSet_self (S : List String) (x : String) (h : x ∈ S) :
    x ∈ stepSet S := by
  rw [stepSet]
  exact List.mem_append_left _ h

theorem stepSet_mono (S T : List String) (h : S ⊆ T) :
    stepSet S ⊆ stepSet T := by
  intro y hy
  rw [stepSet, List.mem_append] at hy
  rcases hy with hy | hy
  · exact mem_stepSet_self T y (h hy)
  · rw [List.mem_filter] at hy
    rw [stepSet]
    refine List.mem_append_right _ ?_
    rw [List.mem_filter]
    refine ⟨hy.1, ?_⟩
    rw [List.any_eq_true] at hy ⊢
    obtain ⟨x, hx, hadj⟩ := hy.2
    exact ⟨x, h hx, hadj⟩

theorem adj_mem_stepSet (S : List String) (x y : String)
    (hadj : adjB x y = true) (hx : x ∈ S) : y ∈ stepSet S := by
  rw [stepSet]
  refine List.mem_append_right _ ?_
  rw [List.mem_filter]
  refine ⟨(adjB_mem_nodes x y hadj).2, ?_⟩
  rw [List.any_eq_true]
  exact ⟨x, hx, hadj⟩

theorem reachN_mono_succ (k : Nat) (s : String) :
    reachN k s ⊆ reachN (k + 1) s := by
  induction k with
  | zero =>
    intro x hx
    exact mem_stepSet_self _ x hx
  | succ k ih =>
    rw [reachN, reachN]
    exact stepSet_mono _ _ ih

theorem reachN_mono (j k : Nat) (s : String) (h : j ≤ k) :
    reachN j s ⊆ reachN k s := by
  induction k with
  | zero =>
    have : j = 0 := by omega
    rw [this]
    exact fun x hx => hx
  | succ k ih =>
    by_cases hj : j = k + 1
    · rw [hj]
      exact fun x hx => hx
    · exact fun x hx => reachN_mono_succ k s (ih (by omega) hx)

theorem reachN_shift (s y : String) (hadj : adjB s y = true) (k : Nat) :
    reachN k y ⊆ reachN (k + 1) s := by
  induction k with
  | zero =>
    intro x hx
    rw [reachN] at hx
    rcases List.mem_singleton.mp hx with rfl
    exact adj_mem_stepSet _ s x hadj (List.mem_singleton_self s)
  | succ k ih =>
    rw [reachN, reachN]
    exact stepSet_mono _ _ ih

theorem walk_last_reach : ∀ (p : List String) (s d : String),
    isWalkB p = true → p.head? = some s → p.getLast? = some d →
    d ∈ reachN (p.length - 1) s := by
  intro p
  induction p with
  | nil =>
    intro s d hw
    simp [isWalkB] at hw
  | cons x q ih =>
    intro s d hw hh hl
    have hx : x = s := by simpa using hh
    cases q with
    | nil =>
      have hd : x = d := by simpa using hl
      rw [← hx, ← hd]
      simp [reachN]
    | cons y r =>
      rw [isWalkB, Bool.and_eq_true] at hw
      have hl' : (y :: r).getLast? = some d := by
        simpa [List.getLast?_cons_cons] using hl
      have ihy := ih y d hw.2 (by simp) hl'
      have hlen : (y :: r).length - 1 = r.length := by simp
      rw [hlen] at ihy
      have hadj : adjB s y = true := by rw [← hx]; exact hw.1
      have hshift := reachN_shift s y hadj r.length ihy
      have hlen2 : (x :: y :: r).length - 1 = r.length + 1 := by simp
      rw [hlen2]
      exact hshift

theorem checkPair_shortest (s d : String) (h : checkPair s d = true) :
    isWalkB (dijkstra nodes links0 s d) = true ∧
    (dijkstra nodes links0 s d).head? = some s ∧
    (dijkstra nodes links0 s d).getLast? = some d ∧
    ∀ q : List String, isWalkB q = true → q.head? = some s →
      q.getLast? = some d → (dijkstra nodes links0 s d).length ≤ q.length := by
  rw [checkPair] at h
  simp only [Bool.and_eq_true, Bool.or_eq_true, Bool.not_eq_true',
    decide_eq_true_eq, decide_eq_false_iff_not] at h
  obtain ⟨⟨⟨hw, hh⟩, hl⟩, hshort⟩ := h
  refine ⟨hw, hh, hl, ?_⟩
  intro q hqw hqh hql
  have hq1 : 1 ≤ q.length := by
    cases q with
    | nil => simp [isWalkB] at hqw
    | cons a q => simp
  rcases hshort with hlen | hnr
  · omega
  · by_contra hcon
    push_neg at hcon
    have hd : d ∈ reachN (q.length - 1) s := walk_last_reach q s d hqw hqh hql
    exact hnr (reachN_mono (q.length - 1)
      ((dijkstra nodes links0 s d).length - 2) s (by omega) hd)

/-- C6: for every source and destination in the node set, `dijkstra` on the
default topology returns a walk from source to destination in the
undirected routing graph that is shortest by hop count (every other such
walk is at least as long); in particular `dijkstra(nodes, links, A, E)`
returns the 3-node, 2-link path `A → C → E`. -/
theorem C6_dijkstra_shortest :
    (∀ s ∈ nodes, ∀ d ∈ nodes,
      isWalkB (dijkstra nodes links0 s d) = true ∧
      (dijkstra nodes links0 s d).head? = some s ∧
      (dijkstra nodes links0 s d).getLast? = some d ∧
      ∀ q : List String, isWalkB q = true → q.head? = some s →
        q.getLast? = some d → (dijkstra nodes links0 s d).length ≤ q.length) ∧
    dijkstra nodes links0 "A" "E" = ["A", "C", "E"] := by
  constructor
  · have hall : ∀ s ∈ nodes, ∀ d ∈ nodes, checkPair s d = true := by decide
    intro s hs d hd
    exact checkPair_shortest s d (hall s hs d hd)
  · decide

/-- Witness for C6 at the concrete pair `(A, E)`. -/
theorem C6_dijkstra_shortest_witness :
    isWalkB (dijkstra nodes links0 "A" "E") = true ∧
    (dijkstra nodes links0 "A" "E").head? = some "A" :=
  ⟨((C6_dijkstra_shortest).1 "A" (by decide) "E" (by decide)).1,
   ((C6_dijkstra_shortest).1 "A" (by decide) "E" (by decide)).2.1⟩

/-! ## Claim C10 — self-routes, the `< 2` guard, and destination choice -/

theorem getRandomDestination_ne (s : String) (r : Nat) :
    getRandomDestination s r ≠ s := by
  rw [getRandomDestination]
  have hne : (nodes.filter (fun n => n != s)) ≠ [] := by
    by_cases hA : s = "A"
    · subst hA
      intro hnil
      have hB : "B" ∈ nodes.filter (fun n => n != "A") := by decide
      rw [hnil] at hB
      cases hB
    · intro hnil
      have hA' : "A" ∈ nodes.filter (fun n => n != s) := by
        rw [List.mem_filter]
        refine ⟨by decide, ?_⟩
        rw [bne_iff_ne]
        exact fun hh => hA hh.symm
      rw [hnil] at hA'
      cases hA'
  have hlen : 0 < (nodes.filter (fun n => n != s)).length :=
    List.length_pos.mpr hne
  have hlt : r % (nodes.filter (fun n => n != s)).length <
      (nodes.filter (fun n => n != s)).length := Nat.mod_lt _ hlen
  rw [List.getD_eq_getElem?_getD, List.getElem?_eq_getElem hlt, Option.getD_some]
  have hmem := List.getElem_mem (l := nodes.filter (fun n => n != s)) hlt
  have := (List.mem_filter.mp hmem).2
  rw [bne_iff_ne] at this
  exact this

theorem processPacket_skip (st : Sim) (src dst : String) (i : Nat)
    (h : (dijkstra nodes st.links src dst).length < 2) :
    processPacket st src dst i = st := by
  simp only [processPacket]
  rw [if_pos h]

/-- C10: on the default topology `dijkstra(nodes, links, s, s)` returns the
single-element path `[s]` for every node `s` (not the empty sequence); the
per-packet guard discards any path with fewer than two nodes without
touching the state (in particular without consuming link capacity), so a
source-equals-destination packet could never bill a link — and the engine
never produces one, because `getRandomDestination` always returns a node
different from its source. -/
theorem C10_self_route_guard :
    (∀ s ∈ nodes, dijkstra nodes links0 s s = [s]) ∧
    (∀ (st : Sim) (src dst : String) (i : Nat),
      (dijkstra nodes st.links src dst).length < 2 →
      processPacket st src dst i = st) ∧
    (∀ (st : Sim) (s : String) (i : Nat), st.links = links0 → s ∈ nodes →
      processPacket st s s i = st) ∧
    (∀ (s : String) (r : Nat), getRandomDestination s r ≠ s) := by
  have hself : ∀ s ∈ nodes, dijkstra nodes links0 s s = [s] := by decide
  refine ⟨hself, processPacket_skip, ?_, getRandomDestination_ne⟩
  intro st s i hlinks hs
  refine processPacket_skip st s s i ?_
  rw [hlinks, hself s hs]
  simp

/-- Witness for C10 at concrete inputs. -/
theorem C10_self_route_guard_witness :
    dijkstra nodes links0 "A" "A" = ["A"] ∧
    processPacket initState "B" "B" 0 = initState ∧
    getRandomDestination "C" 5 ≠ "C" :=
  ⟨(C10_self_route_guard).1 "A" (by decide),
   (C10_self_route_guard).2.2.1 initState "B" 0 rfl (by decide),
   (C10_self_route_guard).2.2.2 "C" 5⟩

/-! ## Claim C3 — backlog drain -/

/-- The amount `processQueuedPackets` releases for one queue entry:
`min(queue, capacity)` when the queue is positive and the link exists,
otherwise nothing. -/
def drainAmt (links : List Link) (k : String) (q : Int) : Int :=
  if q > 0 then
    match links.find? (fun l => linkKey l == k) with
    | some l => min q l.capacity
    | none => 0
  else 0

/-- Equality of two states everywhere except `queues` and
`totalPacketsTransmitted` (the only fields the drain touches). -/
def FrameQT (st st' : Sim) : Prop :=
  st'.links = st.links ∧ st'.trafficRates = st.trafficRates ∧
  st'.currentTime = st.currentTime ∧ st'.isRunning = st.isRunning ∧
  st'.simulationStep = st.simulationStep ∧ st'.linkLoads = st.linkLoads ∧
  st'.packetStats = st.packetStats ∧ st'.nodeStats = st.nodeStats ∧
  st'.totalPacketsGenerated = st.totalPacketsGenerated

theorem frameQT_refl (st : Sim) : FrameQT st st :=
  ⟨rfl, rfl, rfl, rfl, rfl, rfl, rfl, rfl, rfl⟩

theorem frameQT_trans (s1 s2 s3 : Sim) (h1 : FrameQT s1 s2)
    (h2 : FrameQT s2 s3) : FrameQT s1 s3 := by
  obtain ⟨a1, a2, a3, a4, a5, a6, a7, a8, a9⟩ := h1
  obtain ⟨b1, b2, b3, b4, b5, b6, b7, b8, b9⟩ := h2
  exact ⟨b1.trans a1, b2.trans a2, b3.trans a3, b4.trans a4, b5.trans a5,
         b6.trans a6, b7.trans a7, b8.trans a8, b9.trans a9⟩

theorem sum_map_add {α : Type} (m : List α) (f g : α → Int) :
    (m.map (fun e => f e + g e)).sum = (m.map f).sum + (m.map g).sum := by
  induction m with
  | nil => simp
  | cons e m ih =>
    simp only [List.map_cons, List.sum_cons, ih]
    ring

theorem aGet_map_values (m : JObj Int) (k : String) (f : String → Int → Int) :
    aGet (m.map (fun e => (e.1, f e.1 e.2))) k = (aGet m k).map (fun q => f k q) := by
  induction m with
  | nil => simp [aGet]
  | cons e m ih =>
    by_cases he : e.1 = k
    · subst he
      simp [aGet, ih]
    · simp [aGet, he, ih]

theorem aGet_eq_of_mem_nodup {α : Type} (m : JObj α) (e : String × α)
    (hnd : (m.map (fun x => x.1)).Nodup) (hm : e ∈ m) :
    aGet m e.1 = some e.2 := by
  induction m with
  | nil => cases hm
  | cons f m ih =>
    rcases List.mem_cons.mp hm with rfl | hm'
    · rw [aGet, if_pos rfl]
    · have hne : ¬ f.1 = e.1 := by
        intro hh
        have : e.1 ∈ m.map (fun x => x.1) := List.mem_map_of_mem _ hm'
        rw [List.map_cons, List.nodup_cons] at hnd
        exact hnd.1 (hh ▸ this)
      rw [aGet, if_neg hne]
      exact ih (by rw [List.map_cons, List.nodup_cons] at hnd; exact hnd.2) hm'

theorem aSet_eq_map_nodup {α : Type} (m : JObj α) (k : String) (v : α)
    (hnd : (m.map (fun x => x.1)).Nodup) (hk : k ∈ m.map (fun x => x.1)) :
    aSet m k v = m.map (fun e => if e.1 = k then (k, v) else e) := by
  induction m with
  | nil => cases hk
  | cons f m ih =>
    rw [List.map_cons, List.nodup_cons] at hnd
    by_cases hf : f.1 = k
    · rw [aSet, if_pos hf, List.map_cons, if_pos hf]
      have hrest : ∀ e ∈ m, (if e.1 = k then (k, v) else e) = e := by
        intro e he
        rw [if_neg]
        intro hh
        exact hnd.1 (hf ▸ hh ▸ List.mem_map_of_mem _ he)
      rw [List.map_congr_left hrest]
      simp
    · rw [aSet, if_neg hf, List.map_cons, if_neg hf]
      have hk' : k ∈ m.map (fun x => x.1) := by
        rcases List.mem_cons.mp hk with hh | hh
        · exact absurd hh.symm hf
        · exact hh
      rw [ih hnd.2 hk']

theorem sum_zero_of_not_key (m : JObj Int) (k : String) (f : Int → Int)
    (hk : k ∉ m.map (fun x => x.1)) :
    (m.map (fun e => if e.1 = k then f e.2 else 0)).sum = 0 := by
  induction m with
  | nil => simp
  | cons e m ih =>
    rw [List.map_cons, List.mem_cons] at hk
    push_neg at hk
    rw [List.map_cons, List.sum_cons, if_neg (fun hh => hk.1 hh.symm),
        ih hk.2]
    simp

theorem sum_single_key (m : JObj Int) (k : String) (f : Int → Int)
    (hnd : (m.map (fun x => x.1)).Nodup) (hk : k ∈ m.map (fun x => x.1)) :
    (m.map (fun e => if e.1 = k then f e.2 else 0)).sum = f (aGetD m k 0) := by
  induction m with
  | nil => cases hk
  | cons e m ih =>
    rw [List.map_cons, List.nodup_cons] at hnd
    by_cases he : e.1 = k
    · have hget : aGetD (e :: m) k 0 = e.2 := by simp [aGetD, aGet, he]
      rw [List.map_cons, List.sum_cons, if_pos he,
          sum_zero_of_not_key m k f (he ▸ hnd.1), hget]
      simp
    · have hk' : k ∈ m.map (fun x => x.1) := by
        rcases List.mem_cons.mp hk with hh | hh
        · exact absurd hh.symm he
        · exact hh
      have hget : aGetD (e :: m) k 0 = aGetD m k 0 := by
        simp [aGetD, aGet, he]
      rw [List.map_cons, List.sum_cons, if_neg he, ih hnd.2 hk', hget]
      simp

theorem drainKey_spec (st : Sim) (k : String)
    (hnd : (st.queues.map (fun e => e.1)).Nodup)
    (hk : k ∈ st.queues.map (fun e => e.1)) :
    (drainKey st k).queues =
      st.queues.map (fun e =>
        if e.1 = k then (e.1, e.2 - drainAmt st.links e.1 e.2) else e) ∧
    (drainKey st k).totalPacketsTransmitted =
      st.totalPacketsTransmitted + drainAmt st.links k (aGetD st.queues k 0) ∧
    FrameQT st (drainKey st k) := by
  have hval : ∀ e ∈ st.queues, e.1 = k → e.2 = aGetD st.queues k 0 := by
    intro e he hek
    have := aGet_eq_of_mem_nodup st.queues e hnd he
    rw [hek] at this
    rw [aGetD, this, Option.getD_some]
  by_cases hq : aGetD st.queues k 0 > 0
  · cases hfind : st.links.find? (fun l => linkKey l == k) with
    | some l =>
      have hamt : drainAmt st.links k (aGetD st.queues k 0) =
          min (aGetD st.queues k 0) l.capacity := by
        rw [drainAmt, if_pos hq, hfind]
      have hdk : drainKey st k =
          { st with
            queues := aSet st.queues k
              (aGetD st.queues k 0 - min (aGetD st.queues k 0) l.capacity),
            totalPacketsTransmitted := st.totalPacketsTransmitted +
              min (aGetD st.queues k 0) l.capacity } := by
        rw [drainKey, if_pos hq, hfind]
      rw [hdk]
      refine ⟨?_, by rw [hamt], ?_⟩
      · rw [aSet_eq_map_nodup st.queues k _ hnd hk]
        refine List.map_congr_left ?_
        intro e he
        by_cases hek : e.1 = k
        · have h2 : e.2 = aGetD st.queues k 0 := hval e he hek
          rw [if_pos hek, if_pos hek, hek, h2, hamt]
        · rw [if_neg hek, if_neg hek]
      · exact ⟨rfl, rfl, rfl, rfl, rfl, rfl, rfl, rfl, rfl⟩
    | none =>
      have hdk : drainKey st k = st := by
        rw [drainKey, if_pos hq, hfind]
      have hamt : drainAmt st.links k (aGetD st.queues k 0) = 0 := by
        rw [drainAmt, if_pos hq, hfind]
      rw [hdk]
      refine ⟨?_, by rw [hamt]; ring, frameQT_refl st⟩
      have hid : ∀ e ∈ st.queues,
          (if e.1 = k then (e.1, e.2 - drainAmt st.links e.1 e.2) else e) = e := by
        intro e he
        by_cases hek : e.1 = k
        · have h2 : e.2 = aGetD st.queues k 0 := hval e he hek
          have hA : drainAmt st.links e.1 e.2 = 0 := by
            rw [drainAmt, hek, h2, if_pos hq, hfind]
          rw [if_pos hek, hA]
          simp
        · rw [if_neg hek]
      rw [List.map_congr_left hid]
      simp
  · have hdk : drainKey st k = st := by
      rw [drainKey, if_neg hq]
    have hamt : drainAmt st.links k (aGetD st.queues k 0) = 0 := by
      rw [drainAmt, if_neg hq]
    rw [hdk]
    refine ⟨?_, by rw [hamt]; ring, frameQT_refl st⟩
    have hid : ∀ e ∈ st.queues,
        (if e.1 = k then (e.1, e.2 - drainAmt st.links e.1 e.2) else e) = e := by
      intro e he
      by_cases hek : e.1 = k
      · have h2 : e.2 = aGetD st.queues k 0 := hval e he hek
        have hA : drainAmt st.links e.1 e.2 = 0 := by
          rw [drainAmt, hek, h2, if_neg hq]
        rw [if_pos hek, hA]
        simp
      · rw [if_neg hek]
    rw [List.map_congr_left hid]
    simp

theorem drain_go : ∀ (ks : List String) (st : Sim),
    (st.queues.map (fun e => e.1)).Nodup → ks.Nodup →
    (∀ k ∈ ks, k ∈ st.queues.map (fun e => e.1)) →
    (ks.foldl drainKey st).queues =
      st.queues.map (fun e =>
        if e.1 ∈ ks then (e.1, e.2 - drainAmt st.links e.1 e.2) else e) ∧
    (ks.foldl drainKey st).totalPacketsTransmitted =
      st.totalPacketsTransmitted +
        (st.queues.map (fun e =>
          if e.1 ∈ ks then drainAmt st.links e.1 e.2 else 0)).sum ∧
    FrameQT st (ks.foldl drainKey st) := by
  intro ks
  induction ks with
  | nil =>
    intro st hnd _ _
    refine ⟨?_, by simp, frameQT_refl st⟩
    have hid : ∀ e ∈ st.queues,
        (if e.1 ∈ ([] : List String)
          then (e.1, e.2 - drainAmt st.links e.1 e.2) else e) = e := by
      intro e _
      simp
    rw [List.foldl_nil, List.map_congr_left hid]
    simp
  | cons k ks ih =>
    intro st hnd hksnd hmem
    rw [List.nodup_cons] at hksnd
    have hknks : k ∉ ks := hksnd.1
    have hkq : k ∈ st.queues.map (fun e => e.1) :=
      hmem k (List.mem_cons_self _ _)
    obtain ⟨hq1, hT1, hF1⟩ := drainKey_spec st k hnd hkq
    have hkeys : (drainKey st k).queues.map (fun e => e.1) =
        st.queues.map (fun e => e.1) := by
      rw [hq1, List.map_map]
      refine List.map_congr_left ?_
      intro e _
      by_cases hek : e.1 = k <;> simp [Function.comp, hek]
    have hnd' : ((drainKey st k).queues.map (fun e => e.1)).Nodup := by
      rw [hkeys]; exact hnd
    have hmem' : ∀ k' ∈ ks, k' ∈ (drainKey st k).queues.map (fun e => e.1) := by
      intro k' hk'
      rw [hkeys]
      exact hmem k' (List.mem_cons_of_mem _ hk')
    obtain ⟨hq2, hT2, hF2⟩ := ih (drainKey st k) hnd' hksnd.2 hmem'
    rw [hF1.1] at hq2 hT2
    rw [List.foldl_cons]
    refine ⟨?_, ?_, frameQT_trans _ _ _ hF1 hF2⟩
    · rw [hq2, hq1, List.map_map]
      refine List.map_congr_left ?_
      intro e _
      by_cases hek : e.1 = k
      · simp [Function.comp, hek, hknks]
      · simp [Function.comp, hek]
    · rw [hT2, hT1]
      have hsame : ((st.queues.map (fun e =>
          if e.1 = k then (e.1, e.2 - drainAmt st.links e.1 e.2) else e)).map
            (fun e => if e.1 ∈ ks then drainAmt st.links e.1 e.2 else 0)).sum =
          (st.queues.map (fun e =>
            if e.1 ∈ ks then drainAmt st.links e.1 e.2 else 0)).sum := by
        rw [List.map_map]
        congr 1
        refine List.map_congr_left ?_
        intro e _
        by_cases hek : e.1 = k
        · simp [Function.comp, hek, hknks]
        · simp [Function.comp, hek]
      rw [hq1, hsame]
      have hsplit : (st.queues.map (fun e =>
          if e.1 ∈ k :: ks then drainAmt st.links e.1 e.2 else 0)).sum =
          (st.queues.map (fun e =>
            if e.1 = k then drainAmt st.links e.1 e.2 else 0)).sum +
          (st.queues.map (fun e =>
            if e.1 ∈ ks then drainAmt st.links e.1 e.2 else 0)).sum := by
        rw [← sum_map_add]
        congr 1
        refine List.map_congr_left ?_
        intro e _
        by_cases hek : e.1 = k
        · simp [hek, hknks]
        · by_cases hek2 : e.1 ∈ ks <;> simp [hek, hek2]
      rw [hsplit]
      have hone : (st.queues.map (fun e =>
          if e.1 = k then drainAmt st.links e.1 e.2 else 0)).sum =
          drainAmt st.links k (aGetD st.queues k 0) := by
        have hpt : ∀ e ∈ st.queues,
            (if e.1 = k then drainAmt st.links e.1 e.2 else 0) =
            (if e.1 = k then (fun q => drainAmt st.links k q) e.2 else 0) := by
          intro e _
          by_cases hek : e.1 = k
          · rw [if_pos hek, if_pos hek, hek]
          · rw [if_neg hek, if_neg hek]
        rw [List.map_congr_left hpt]
        exact sum_single_key st.queues k _ hnd hkq
      rw [hone]
      ring

theorem drain_spec (st : Sim)
    (hnd : (st.queues.map (fun e => e.1)).Nodup) :
    (processQueuedPackets st).queues =
      st.queues.map (fun e => (e.1, e.2 - drainAmt st.links e.1 e.2)) ∧
    (processQueuedPackets st).totalPacketsTransmitted =
      st.totalPacketsTransmitted +
        (st.queues.map (fun e => drainAmt st.links e.1 e.2)).sum ∧
    FrameQT st (processQueuedPackets st) := by
  obtain ⟨h1, h2, h3⟩ := drain_go (st.queues.map (fun e => e.1)) st hnd hnd
    (fun k hk => hk)
  rw [processQueuedPackets]
  refine ⟨?_, ?_, h3⟩
  · rw [h1]
    refine List.map_congr_left ?_
    intro e he
    rw [if_pos (List.mem_map_of_mem _ he)]
  · rw [h2]
    congr 1
    refine congrArg List.sum ?_
    refine List.map_congr_left ?_
    intro e he
    rw [if_pos (List.mem_map_of_mem _ he)]

theorem aGet_drained (m : JObj Int) (links : List Link) (k : String) :
    aGet (m.map (fun e => (e.1, e.2 - drainAmt links e.1 e.2))) k =
      (aGet m k).map (fun q => q - drainAmt links k q) := by
  induction m with
  | nil => simp [aGet]
  | cons e m ih =>
    by_cases he : e.1 = k
    · subst he
      simp [aGet, ih]
    · simp [aGet, he, ih]

/-- A reachable state with every traffic rate set to 0 (no new load). -/
def zeroRatesState : Sim := (updateTrafficRates rateOneState "A" 0).1

/-- The claim's backlog scenario: queue `D-E` holding 150 with capacity 60
and no new load. -/
def q150State : Sim :=
  { zeroRatesState with queues := aSet zeroRatesState.queues "D-E" 150 }

/-- C3: backlog drainage runs once per tick before new traffic is generated
(`simulateTick` drains and only afterwards generates); for every link with
a positive queue entry, `processQueuedPackets` releases exactly
`min(queue, capacity)` units from that queue into the cumulative
transmitted counter — the queue never goes negative and never drains more
than one capacity's worth per tick; concretely, queue `D-E` = 150 with
capacity 60 and no new load drains 60 per tick through `simulateTick`,
needing exactly three ticks to empty (90, then 30, then 0). -/
theorem C3_drain_releases_min :
    (∀ (st : Sim) (l : Link) (q : Int),
      st.links = links0 → l ∈ links0 →
      (st.queues.map (fun e => e.1)).Nodup →
      aGet st.queues (linkKey l) = some q → 0 < q →
      aGet (processQueuedPackets st).queues (linkKey l) =
        some (q - min q l.capacity) ∧
      0 ≤ q - min q l.capacity ∧ min q l.capacity ≤ l.capacity) ∧
    (∀ st : Sim, (st.queues.map (fun e => e.1)).Nodup →
      (processQueuedPackets st).totalPacketsTransmitted =
        st.totalPacketsTransmitted +
          (st.queues.map (fun e => drainAmt st.links e.1 e.2)).sum) ∧
    (aGetD (runTicks (fun _ _ => 0) 1 q150State).queues "D-E" 0 = 90 ∧
     aGetD (runTicks (fun _ _ => 0) 2 q150State).queues "D-E" 0 = 30 ∧
     aGetD (runTicks (fun _ _ => 0) 3 q150State).queues "D-E" 0 = 0 ∧
     (runTicks (fun _ _ => 0) 2 q150State).totalPacketsTransmitted = 120 ∧
     (runTicks (fun _ _ => 0) 3 q150State).totalPacketsTransmitted = 150) := by
  have hfind : ∀ l ∈ links0,
      links0.find? (fun l' => linkKey l' == linkKey l) = some l := by decide
  refine ⟨?_, ?_, by decide, by decide, by decide, by decide, by decide⟩
  · intro st l q hlinks hl hnd hget hq
    obtain ⟨hQ, _, _⟩ := drain_spec st hnd
    have hamt : drainAmt st.links (linkKey l) q = min q l.capacity := by
      rw [hlinks, drainAmt, if_pos hq, hfind l hl]
    refine ⟨?_, ?_, min_le_right q l.capacity⟩
    · rw [hQ, aGet_drained, hget]
      simp only [Option.map]
      rw [hamt]
    · have := min_le_left q l.capacity
      omega
  · intro st hnd
    exact (drain_spec st hnd).2.1

/-- Witness for C3 at the concrete backlog scenario (`D-E` queue 150,
capacity 60). -/
theorem C3_drain_releases_min_witness :
    aGet (processQueuedPackets q150State).queues "D-E" =
      some (150 - min 150 60) ∧
    (processQueuedPackets q150State).totalPacketsTransmitted =
      q150State.totalPacketsTransmitted +
        (q150State.queues.map
          (fun e => drainAmt q150State.links e.1 e.2)).sum :=
  ⟨((C3_drain_releases_min).1 q150State ⟨"D", "E", 60⟩ 150 rfl (by decide)
      (by decide) (by decide) (by decide)).1,
   (C3_drain_releases_min).2.1 q150State (by decide)⟩

/-! ## Claim C1 — cumulative transmitted never exceeds cumulative generated

The proof establishes the inductive invariant
`totalPacketsTransmitted + (sum of all queues) ≤ totalPacketsGenerated`.
The backlog drain moves queue units one-for-one into the transmitted
counter, and each generated packet adds at most one unit to
`transmitted + queues` — the latter needs the observation that on the
default topology no packet can be congested on two links of its path in
the same tick, which is proved by tracking the loads of the critical links
through the generation loop (sources are processed in the fixed order
A, B, C, D, E). -/

/-- The quantity that generation can grow by at most one per packet. -/
def Mval (st : Sim) : Int := st.totalPacketsTransmitted + valSum st.queues

/-- Loads table sanity: every default link's current-tick load is between 0
and its capacity. -/
def LoadsOkM (m : JObj Int) : Prop :=
  ∀ l ∈ links0, 0 ≤ aGetD m (linkKey l) 0 ∧ aGetD m (linkKey l) 0 ≤ l.capacity

/-- Queue table sanity: distinct keys and nonnegative values. -/
def QOKM (m : JObj Int) : Prop :=
  (m.map (fun e => e.1)).Nodup ∧ ∀ e ∈ m, 0 ≤ e.2

/-- Fields that the generation loop never changes. -/
def GFrame (st st' : Sim) : Prop :=
  st'.links = st.links ∧ st'.trafficRates = st.trafficRates ∧
  st'.currentTime = st.currentTime ∧
  st'.totalPacketsGenerated = st.totalPacketsGenerated ∧
  st'.simulationStep = st.simulationStep

theorem gframe_refl (st : Sim) : GFrame st st := ⟨rfl, rfl, rfl, rfl, rfl⟩

theorem gframe_trans (s1 s2 s3 : Sim) (h1 : GFrame s1 s2) (h2 : GFrame s2 s3) :
    GFrame s1 s3 :=
  ⟨h2.1.trans h1.1, h2.2.1.trans h1.2.1, h2.2.2.1.trans h1.2.2.1,
   h2.2.2.2.1.trans h1.2.2.2.1, h2.2.2.2.2.trans h1.2.2.2.2⟩

theorem loadsOkM_set (m : JObj Int) (lk : String) (v : Int) (h0 : 0 ≤ v)
    (hcap : ∀ l ∈ links0, linkKey l = lk → v ≤ l.capacity)
    (hL : LoadsOkM m) : LoadsOkM (aSet m lk v) := by
  intro l hl
  by_cases hk : linkKey l = lk
  · rw [hk, aGetD_aSet_self]
    exact ⟨h0, hcap l hl hk⟩
  · rw [aGetD_aSet_ne _ _ _ _ _ hk]
    exact hL l hl

theorem qokM_set (m : JObj Int) (lk : String) (v : Int) (hv : 0 ≤ v)
    (h : QOKM m) : QOKM (aSet m lk v) :=
  ⟨nodup_keys_aSet m lk v h.1,
   aSet_forall_values (fun x => 0 ≤ x) m lk v h.2 hv⟩

theorem valSum_aSet_add (m : JObj Int) (lk : String) (d : Int) :
    valSum (aSet m lk (aGetD m lk 0 + d)) = valSum m + d := by
  rw [valSum_aSet]
  ring

theorem links0_find_self : ∀ l ∈ links0,
    links0.find? (fun l' => linkKey l' == linkKey l) = some l := by decide

theorem links0_find_none (k : String) (h : ∀ l ∈ links0, ¬ linkKey l = k) :
    links0.find? (fun l => linkKey l == k) = none := by
  rw [List.find?_eq_none]
  intro l hl
  simp only [beq_iff_eq]
  exact h l hl

/-- Unfolding of the hop loop for a two-node path. -/
theorem transmitHops_one (st : Sim) (a b : String) :
    transmitHops st [a, b] =
      ((updateLinkLoad st (a ++ "-" ++ b) 1).1,
       [⟨a, b, (updateLinkLoad st (a ++ "-" ++ b) 1).2, a ++ "-" ++ b⟩],
       (updateLinkLoad st (a ++ "-" ++ b) 1).2) := by
  simp [transmitHops]

/-- Unfolding of the hop loop for a three-node path. -/
theorem transmitHops_two (st : Sim) (a b c : String) :
    transmitHops st [a, b, c] =
      ((updateLinkLoad (updateLinkLoad st (a ++ "-" ++ b) 1).1
          (b ++ "-" ++ c) 1).1,
       [⟨a, b, (updateLinkLoad st (a ++ "-" ++ b) 1).2, a ++ "-" ++ b⟩,
        ⟨b, c, (updateLinkLoad (updateLinkLoad st (a ++ "-" ++ b) 1).1
          (b ++ "-" ++ c) 1).2, b ++ "-" ++ c⟩],
       (updateLinkLoad st (a ++ "-" ++ b) 1).2 &&
         (updateLinkLoad (updateLinkLoad st (a ++ "-" ++ b) 1).1
           (b ++ "-" ++ c) 1).2) := by
  simp [transmitHops]

/-- The projections of `processPacket` that the invariant argument needs,
in terms of the hop loop. -/
theorem processPacket_proj (st : Sim) (s d : String) (i : Nat)
    (hlen : ¬ (dijkstra nodes st.links s d).length < 2) :
    (processPacket st s d i).queues =
      (transmitHops st (dijkstra nodes st.links s d)).1.queues ∧
    (processPacket st s d i).linkLoads =
      (transmitHops st (dijkstra nodes st.links s d)).1.linkLoads ∧
    (processPacket st s d i).links =
      (transmitHops st (dijkstra nodes st.links s d)).1.links ∧
    (processPacket st s d i).trafficRates =
      (transmitHops st (dijkstra nodes st.links s d)).1.trafficRates ∧
    (processPacket st s d i).currentTime =
      (transmitHops st (dijkstra nodes st.links s d)).1.currentTime ∧
    (processPacket st s d i).totalPacketsGenerated =
      (transmitHops st (dijkstra nodes st.links s d)).1.totalPacketsGenerated ∧
    (processPacket st s d i).simulationStep =
      (transmitHops st (dijkstra nodes st.links s d)).1.simulationStep ∧
    (processPacket st s d i).totalPacketsTransmitted =
      (transmitHops st (dijkstra nodes st.links s d)).1.totalPacketsTransmitted +
        (if (transmitHops st (dijkstra nodes st.links s d)).2.2 then 1 else 0) := by
  simp only [processPacket]
  rw [if_neg hlen]
  by_cases hok : (transmitHops st (dijkstra nodes st.links s d)).2.2
  · simp [hok]
  · simp [hok]

theorem grd_cases (avail : List String) (s : String) (r : Nat)
    (hfilter : nodes.filter (fun n => n != s) = avail)
    (hlen : avail.length = 4) :
    getRandomDestination s r = avail.getD (r % 4) "A" := by
  rw [getRandomDestination, hfilter, hlen]

theorem grd_A (r : Nat) :
    getRandomDestination "A" r = "B" ∨ getRandomDestination "A" r = "C" ∨
    getRandomDestination "A" r = "D" ∨ getRandomDestination "A" r = "E" := by
  rw [grd_cases ["B", "C", "D", "E"] "A" r (by decide) rfl]
  have h4 : r % 4 = 0 ∨ r % 4 = 1 ∨ r % 4 = 2 ∨ r % 4 = 3 := by omega
  rcases h4 with h | h | h | h <;> rw [h] <;> simp

theorem grd_B (r : Nat) :
    getRandomDestination "B" r = "A" ∨ getRandomDestination "B" r = "C" ∨
    getRandomDestination "B" r = "D" ∨ getRandomDestination "B" r = "E" := by
  rw [grd_cases ["A", "C", "D", "E"] "B" r (by decide) rfl]
  have h4 : r % 4 = 0 ∨ r % 4 = 1 ∨ r % 4 = 2 ∨ r % 4 = 3 := by omega
  rcases h4 with h | h | h | h <;> rw [h] <;> simp

theorem grd_C (r : Nat) :
    getRandomDestination "C" r = "A" ∨ getRandomDestination "C" r = "B" ∨
    getRandomDestination "C" r = "D" ∨ getRandomDestination "C" r = "E" := by
  rw [grd_cases ["A", "B", "D", "E"] "C" r (by decide) rfl]
  have h4 : r % 4 = 0 ∨ r % 4 = 1 ∨ r % 4 = 2 ∨ r % 4 = 3 := by omega
  rcases h4 with h | h | h | h <;> rw [h] <;> simp

theorem grd_D (r : Nat) :
    getRandomDestination "D" r = "A" ∨ getRandomDestination "D" r = "B" ∨
    getRandomDestination "D" r = "C" ∨ getRandomDestination "D" r = "E" := by
  rw [grd_cases ["A", "B", "C", "E"] "D" r (by decide) rfl]
  have h4 : r % 4 = 0 ∨ r % 4 = 1 ∨ r % 4 = 2 ∨ r % 4 = 3 := by omega
  rcases h4 with h | h | h | h <;> rw [h] <;> simp

theorem grd_E (r : Nat) :
    getRandomDestination "E" r = "A" ∨ getRandomDestination "E" r = "B" ∨
    getRandomDestination "E" r = "C" ∨ getRandomDestination "E" r = "D" := by
  rw [grd_cases ["A", "B", "C", "D"] "E" r (by decide) rfl]
  have h4 : r % 4 = 0 ∨ r % 4 = 1 ∨ r % 4 = 2 ∨ r % 4 = 3 := by omega
  rcases h4 with h | h | h | h <;> rw [h] <;> simp

theorem links0_key_unique : ∀ l1 ∈ links0, ∀ l2 ∈ links0,
    linkKey l1 = linkKey l2 → l1 = l2 := by decide

theorem links0_cap_pos : ∀ l ∈ links0, 0 < l.capacity := by decide

/-- Everything the invariant argument needs about one `updateLinkLoad` call
on an existing default link: frame fields, queue/load sanity, the at-most-one
growth of the queue total, and exact descriptions of both branches. -/
theorem UL_effects (st : Sim) (l : Link) (lk : String)
    (hlinks : st.links = links0) (hl : l ∈ links0) (hkey : linkKey l = lk)
    (hL : LoadsOkM st.linkLoads) (hQ : QOKM st.queues) :
    (updateLinkLoad st lk 1).1.links = st.links ∧
    (updateLinkLoad st lk 1).1.trafficRates = st.trafficRates ∧
    (updateLinkLoad st lk 1).1.currentTime = st.currentTime ∧
    (updateLinkLoad st lk 1).1.totalPacketsGenerated =
      st.totalPacketsGenerated ∧
    (updateLinkLoad st lk 1).1.simulationStep = st.simulationStep ∧
    (updateLinkLoad st lk 1).1.totalPacketsTransmitted =
      st.totalPacketsTransmitted ∧
    (updateLinkLoad st lk 1).1.packetStats = st.packetStats ∧
    (updateLinkLoad st lk 1).1.nodeStats = st.nodeStats ∧
    QOKM (updateLinkLoad st lk 1).1.queues ∧
    LoadsOkM (updateLinkLoad st lk 1).1.linkLoads ∧
    valSum (updateLinkLoad st lk 1).1.queues ≤ valSum st.queues + 1 ∧
    ((updateLinkLoad st lk 1).2 = true →
      (updateLinkLoad st lk 1).1.queues = st.queues ∧
      (updateLinkLoad st lk 1).1.linkLoads =
        aSet st.linkLoads lk (aGetD st.linkLoads lk 0 + 1)) ∧
    ((updateLinkLoad st lk 1).2 = false →
      valSum (updateLinkLoad st lk 1).1.queues = valSum st.queues + 1 ∧
      (updateLinkLoad st lk 1).1.linkLoads = aSet st.linkLoads lk l.capacity) ∧
    (aGetD st.linkLoads lk 0 + 1 ≤ l.capacity →
      (updateLinkLoad st lk 1).2 = true) ∧
    (∀ k : String, k ≠ lk →
      aGetD (updateLinkLoad st lk 1).1.linkLoads k 0 = aGetD st.linkLoads k 0) ∧
    aGetD (updateLinkLoad st lk 1).1.linkLoads lk 0 ≤
      aGetD st.linkLoads lk 0 + 1 := by
  have hfind : st.links.find? (fun l' => linkKey l' == lk) = some l := by
    rw [hlinks, ← hkey]
    exact links0_find_self l hl
  have hcapu : ∀ l' ∈ links0, linkKey l' = lk → l'.capacity = l.capacity := by
    intro l' hl' hk'
    rw [links0_key_unique l' hl' l hl (hk'.trans hkey.symm)]
  have hLl := hL l hl
  rw [hkey] at hLl
  have hq0 : 0 ≤ aGetD st.queues lk 0 :=
    aGetD_prop (fun x => 0 ≤ x) st.queues lk 0 hQ.2 le_rfl
  by_cases hc : l.capacity < aGetD st.linkLoads lk 0 + 1
  · have hexcess : aGetD st.linkLoads lk 0 + 1 - l.capacity = 1 := by omega
    have heq := UL_congested st lk 1 l hfind hc
    rw [heq, hexcess]
    refine ⟨rfl, rfl, rfl, rfl, rfl, rfl, rfl, rfl, ?_, ?_, ?_, ?_, ?_, ?_,
      ?_, ?_⟩
    · exact qokM_set st.queues lk _ (by omega) hQ
    · refine loadsOkM_set st.linkLoads lk l.capacity ?_ ?_ hL
      · have := links0_cap_pos l hl
        omega
      · intro l' hl' hk'
        rw [hcapu l' hl' hk']
    · rw [valSum_aSet_add]
    · intro hcontra
      cases hcontra
    · intro _
      exact ⟨valSum_aSet_add st.queues lk 1, rfl⟩
    · intro hle
      omega
    · intro k hk'
      exact aGetD_aSet_ne _ _ _ _ _ hk'
    · rw [aGetD_aSet_self]
      omega
  · have heq := UL_ok st lk 1 l hfind (by omega)
    rw [heq]
    refine ⟨rfl, rfl, rfl, rfl, rfl, rfl, rfl, rfl, hQ, ?_,
      by show valSum st.queues ≤ valSum st.queues + 1; omega, ?_, ?_,
      ?_, ?_, ?_⟩
    · refine loadsOkM_set st.linkLoads lk _ (by omega) ?_ hL
      intro l' hl' hk'
      rw [hcapu l' hl' hk']
      omega
    · intro _
      exact ⟨rfl, rfl⟩
    · intro hcontra
      cases hcontra
    · intro _
      rfl
    · intro k hk'
      exact aGetD_aSet_ne _ _ _ _ _ hk'
    · rw [aGetD_aSet_self]

/-- An `updateLinkLoad` call on a key that is no default link's key (a
reverse-direction hop) is a no-op returning `false`. -/
theorem UL_missing_effects (st : Sim) (lk : String)
    (hlinks : st.links = links0) (hmiss : ∀ l ∈ links0, ¬ linkKey l = lk) :
    updateLinkLoad st lk 1 = (st, false) := by
  refine UL_missing st lk 1 ?_
  rw [hlinks]
  exact links0_find_none lk hmiss

/-- The per-packet conclusions the generation-loop invariant tracks. -/
def PktOut (st st' : Sim) : Prop :=
  GFrame st st' ∧ QOKM st'.queues ∧ LoadsOkM st'.linkLoads ∧
  Mval st' ≤ Mval st + 1

theorem transmitHops_one_st (st : Sim) (a b : String) :
    (transmitHops st [a, b]).1 = (updateLinkLoad st (a ++ "-" ++ b) 1).1 := by
  simp [transmitHops]

theorem transmitHops_one_ok (st : Sim) (a b : String) :
    (transmitHops st [a, b]).2.2 = (updateLinkLoad st (a ++ "-" ++ b) 1).2 := by
  simp [transmitHops]

theorem transmitHops_two_st (st : Sim) (a b c : String) :
    (transmitHops st [a, b, c]).1 =
      (updateLinkLoad (updateLinkLoad st (a ++ "-" ++ b) 1).1
        (b ++ "-" ++ c) 1).1 := by
  simp [transmitHops]

theorem transmitHops_two_ok (st : Sim) (a b c : String) :
    (transmitHops st [a, b, c]).2.2 =
      ((updateLinkLoad st (a ++ "-" ++ b) 1).2 &&
       (updateLinkLoad (updateLinkLoad st (a ++ "-" ++ b) 1).1
         (b ++ "-" ++ c) 1).2) := by
  simp [transmitHops]

/-- One packet over a two-node path whose single hop is an existing default
link: queues grow by at most one unit in total, loads stay sane, and only
that hop's load can change (by at most one). -/
theorem pkt_one_fwd (st : Sim) (s d a b : String) (l : Link) (i : Nat)
    (hlinks : st.links = links0) (hL : LoadsOkM st.linkLoads)
    (hQ : QOKM st.queues)
    (hpath : dijkstra nodes st.links s d = [a, b])
    (hl : l ∈ links0) (hkey : linkKey l = a ++ "-" ++ b) :
    PktOut st (processPacket st s d i) ∧
    (∀ k : String, k ≠ a ++ "-" ++ b →
      aGetD (processPacket st s d i).linkLoads k 0 =
        aGetD st.linkLoads k 0) ∧
    aGetD (processPacket st s d i).linkLoads (a ++ "-" ++ b) 0 ≤
      aGetD st.linkLoads (a ++ "-" ++ b) 0 + 1 := by
  have hlen : ¬ (dijkstra nodes st.links s d).length < 2 := by
    rw [hpath]; simp
  obtain ⟨hq, hload, hlk, htr, hct, hg, hss, hT⟩ :=
    processPacket_proj st s d i hlen
  rw [hpath, transmitHops_one_st] at hq hload hlk htr hct hg hss
  rw [hpath, transmitHops_one_st, transmitHops_one_ok] at hT
  obtain ⟨e1, e2, e3, e4, e5, e6, _, _, eQOK, eLOK, eVS, eTrue, eFalse,
    _, eOther, eSelf⟩ :=
    UL_effects st l (a ++ "-" ++ b) hlinks hl hkey hL hQ
  refine ⟨⟨⟨hlk.trans e1, htr.trans e2, hct.trans e3, hg.trans e4,
    hss.trans e5⟩, ?_, ?_, ?_⟩, ?_, ?_⟩
  · rw [hq]; exact eQOK
  · rw [hload]; exact eLOK
  · rw [Mval, Mval, hT, hq, e6]
    cases hb : (updateLinkLoad st (a ++ "-" ++ b) 1).2 with
    | true =>
      obtain ⟨hq2, _⟩ := eTrue hb
      rw [hq2, if_pos rfl]
      omega
    | false =>
      have hv := (eFalse hb).1
      rw [if_neg (by simp)]
      omega
  · intro k hk
    rw [hload]
    exact eOther k hk
  · rw [hload]
    exact eSelf

/-- One packet over a two-node path whose single hop key is no default
link (a reverse-direction hop): the packet changes neither loads nor
queues nor the transmitted counter. -/
theorem pkt_one_miss (st : Sim) (s d a b : String) (i : Nat)
    (hlinks : st.links = links0) (hL : LoadsOkM st.linkLoads)
    (hQ : QOKM st.queues)
    (hpath : dijkstra nodes st.links s d = [a, b])
    (hmiss : ∀ l ∈ links0, ¬ linkKey l = a ++ "-" ++ b) :
    PktOut st (processPacket st s d i) ∧
    (processPacket st s d i).linkLoads = st.linkLoads := by
  have hlen : ¬ (dijkstra nodes st.links s d).length < 2 := by
    rw [hpath]; simp
  obtain ⟨hq, hload, hlk, htr, hct, hg, hss, hT⟩ :=
    processPacket_proj st s d i hlen
  rw [hpath, transmitHops_one_st] at hq hload hlk htr hct hg hss
  rw [hpath, transmitHops_one_st, transmitHops_one_ok] at hT
  have heq1 := UL_missing_effects st (a ++ "-" ++ b) hlinks hmiss
  simp only [heq1] at hq hload hlk htr hct hg hss hT
  refine ⟨⟨⟨hlk, htr, hct, hg, hss⟩, ?_, ?_, ?_⟩, hload⟩
  · rw [hq]; exact hQ
  · rw [hload]; exact hL
  · rw [Mval, Mval, hT, hq]
    simp

/-- One packet over a three-node path with both hop keys missing: a full
no-op on loads, queues and counters. -/
theorem pkt_two_miss_miss (st : Sim) (s d a b c : String) (i : Nat)
    (hlinks : st.links = links0) (hL : LoadsOkM st.linkLoads)
    (hQ : QOKM st.queues)
    (hpath : dijkstra nodes st.links s d = [a, b, c])
    (hmiss1 : ∀ l ∈ links0, ¬ linkKey l = a ++ "-" ++ b)
    (hmiss2 : ∀ l ∈ links0, ¬ linkKey l = b ++ "-" ++ c) :
    PktOut st (processPacket st s d i) ∧
    (processPacket st s d i).linkLoads = st.linkLoads := by
  have hlen : ¬ (dijkstra nodes st.links s d).length < 2 := by
    rw [hpath]; simp
  obtain ⟨hq, hload, hlk, htr, hct, hg, hss, hT⟩ :=
    processPacket_proj st s d i hlen
  rw [hpath, transmitHops_two_st] at hq hload hlk htr hct hg hss
  rw [hpath, transmitHops_two_st, transmitHops_two_ok] at hT
  have heq1 := UL_missing_effects st (a ++ "-" ++ b) hlinks hmiss1
  simp only [heq1] at hq hload hlk htr hct hg hss hT
  have heq2 := UL_missing_effects st (b ++ "-" ++ c) hlinks hmiss2
  simp only [heq2] at hq hload hlk htr hct hg hss hT
  refine ⟨⟨⟨hlk, htr, hct, hg, hss⟩, ?_, ?_, ?_⟩, hload⟩
  · rw [hq]; exact hQ
  · rw [hload]; exact hL
  · rw [Mval, Mval, hT, hq]
    simp

/-- One packet over a three-node path whose first hop key is missing and
whose second hop is an existing default link: the packet is never counted
as transmitted, only the second hop's load or queue can change, and queues
grow by at most one unit. -/
theorem pkt_two_miss_fwd (st : Sim) (s d a b c : String) (l : Link) (i : Nat)
    (hlinks : st.links = links0) (hL : LoadsOkM st.linkLoads)
    (hQ : QOKM st.queues)
    (hpath : dijkstra nodes st.links s d = [a, b, c])
    (hmiss1 : ∀ l ∈ links0, ¬ linkKey l = a ++ "-" ++ b)
    (hl : l ∈ links0) (hkey : linkKey l = b ++ "-" ++ c) :
    PktOut st (processPacket st s d i) ∧
    (∀ k : String, k ≠ b ++ "-" ++ c →
      aGetD (processPacket st s d i).linkLoads k 0 =
        aGetD st.linkLoads k 0) ∧
    aGetD (processPacket st s d i).linkLoads (b ++ "-" ++ c) 0 ≤
      aGetD st.linkLoads (b ++ "-" ++ c) 0 + 1 := by
  have hlen : ¬ (dijkstra nodes st.links s d).length < 2 := by
    rw [hpath]; simp
  obtain ⟨hq, hload, hlk, htr, hct, hg, hss, hT⟩ :=
    processPacket_proj st s d i hlen
  rw [hpath, transmitHops_two_st] at hq hload hlk htr hct hg hss
  rw [hpath, transmitHops_two_st, transmitHops_two_ok] at hT
  have heq1 := UL_missing_effects st (a ++ "-" ++ b) hlinks hmiss1
  simp only [heq1] at hq hload hlk htr hct hg hss hT
  obtain ⟨e1, e2, e3, e4, e5, e6, _, _, eQOK, eLOK, eVS, eTrue, eFalse,
    _, eOther, eSelf⟩ :=
    UL_effects st l (b ++ "-" ++ c) hlinks hl hkey hL hQ
  refine ⟨⟨⟨hlk.trans e1, htr.trans e2, hct.trans e3, hg.trans e4,
    hss.trans e5⟩, ?_, ?_, ?_⟩, ?_, ?_⟩
  · rw [hq]; exact eQOK
  · rw [hload]; exact eLOK
  · rw [Mval, Mval, hT, hq, e6]
    simp only [Bool.false_and, if_neg]
    have := eVS
    simp
    omega
  · intro k hk
    rw [hload]
    exact eOther k hk
  · rw [hload]
    exact eSelf

/-- One packet over a three-node path of two existing default links whose
first hop is known to be below capacity: queues plus transmitted grow by at
most one unit, the first hop's load grows by exactly one, and only the two
hop loads can change. -/
theorem pkt_two_fwd_first (st : Sim) (s d a b c : String) (l1 l2 : Link)
    (i : Nat) (hlinks : st.links = links0) (hL : LoadsOkM st.linkLoads)
    (hQ : QOKM st.queues)
    (hpath : dijkstra nodes st.links s d = [a, b, c])
    (hl1 : l1 ∈ links0) (hkey1 : linkKey l1 = a ++ "-" ++ b)
    (hl2 : l2 ∈ links0) (hkey2 : linkKey l2 = b ++ "-" ++ c)
    (hkk : a ++ "-" ++ b ≠ b ++ "-" ++ c)
    (hforce : aGetD st.linkLoads (a ++ "-" ++ b) 0 + 1 ≤ l1.capacity) :
    PktOut st (processPacket st s d i) ∧
    (∀ k : String, k ≠ a ++ "-" ++ b → k ≠ b ++ "-" ++ c →
      aGetD (processPacket st s d i).linkLoads k 0 =
        aGetD st.linkLoads k 0) ∧
    aGetD (processPacket st s d i).linkLoads (a ++ "-" ++ b) 0 =
      aGetD st.linkLoads (a ++ "-" ++ b) 0 + 1 := by
  have hlen : ¬ (dijkstra nodes st.links s d).length < 2 := by
    rw [hpath]; simp
  obtain ⟨hq, hload, hlk, htr, hct, hg, hss, hT⟩ :=
    processPacket_proj st s d i hlen
  rw [hpath, transmitHops_two_st] at hq hload hlk htr hct hg hss
  rw [hpath, transmitHops_two_st, transmitHops_two_ok] at hT
  obtain ⟨e1, e2, e3, e4, e5, e6, _, _, eQOK, eLOK, eVS, eTrue, eFalse,
    eForce, eOther, eSelf⟩ :=
    UL_effects st l1 (a ++ "-" ++ b) hlinks hl1 hkey1 hL hQ
  have hok1 : (updateLinkLoad st (a ++ "-" ++ b) 1).2 = true := eForce hforce
  obtain ⟨hq1, hl1eq⟩ := eTrue hok1
  have hlinks1 : (updateLinkLoad st (a ++ "-" ++ b) 1).1.links = links0 :=
    e1.trans hlinks
  obtain ⟨f1, f2, f3, f4, f5, f6, _, _, fQOK, fLOK, fVS, fTrue, fFalse,
    _, fOther, fSelf⟩ :=
    UL_effects (updateLinkLoad st (a ++ "-" ++ b) 1).1 l2 (b ++ "-" ++ c)
      hlinks1 hl2 hkey2 eLOK eQOK
  refine ⟨⟨⟨hlk.trans (f1.trans e1), htr.trans (f2.trans e2),
    hct.trans (f3.trans e3), hg.trans (f4.trans e4),
    hss.trans (f5.trans e5)⟩, ?_, ?_, ?_⟩, ?_, ?_⟩
  · rw [hq]; exact fQOK
  · rw [hload]; exact fLOK
  · rw [Mval, Mval, hT, hq, f6, e6, hok1]
    simp only [Bool.true_and]
    cases hb : (updateLinkLoad (updateLinkLoad st (a ++ "-" ++ b) 1).1
        (b ++ "-" ++ c) 1).2 with
    | true =>
      have hq2 := (fTrue hb).1
      rw [hq2, hq1, if_pos rfl]
      omega
    | false =>
      have hv := (fFalse hb).1
      rw [hq1] at hv
      rw [if_neg (by simp)]
      omega
  · intro k hk1 hk2
    rw [hload, fOther k hk2, hl1eq, aGetD_aSet_ne _ _ _ _ _ hk1]
  · rw [hload, fOther (a ++ "-" ++ b) hkk, hl1eq, aGetD_aSet_self]

/-- One packet over a three-node path of two existing default links whose
second hop is known to be below capacity (given the first hop does not
change it): queues plus transmitted grow by at most one unit, and the
second hop's load grows by at most one. -/
theorem pkt_two_fwd_second (st : Sim) (s d a b c : String) (l1 l2 : Link)
    (i : Nat) (hlinks : st.links = links0) (hL : LoadsOkM st.linkLoads)
    (hQ : QOKM st.queues)
    (hpath : dijkstra nodes st.links s d = [a, b, c])
    (hl1 : l1 ∈ links0) (hkey1 : linkKey l1 = a ++ "-" ++ b)
    (hl2 : l2 ∈ links0) (hkey2 : linkKey l2 = b ++ "-" ++ c)
    (hkk : b ++ "-" ++ c ≠ a ++ "-" ++ b)
    (hforce : aGetD st.linkLoads (b ++ "-" ++ c) 0 + 1 ≤ l2.capacity) :
    PktOut st (processPacket st s d i) ∧
    (∀ k : String, k ≠ a ++ "-" ++ b → k ≠ b ++ "-" ++ c →
      aGetD (processPacket st s d i).linkLoads k 0 =
        aGetD st.linkLoads k 0) ∧
    aGetD (processPacket st s d i).linkLoads (b ++ "-" ++ c) 0 ≤
      aGetD st.linkLoads (b ++ "-" ++ c) 0 + 1 := by
  have hlen : ¬ (dijkstra nodes st.links s d).length < 2 := by
    rw [hpath]; simp
  obtain ⟨hq, hload, hlk, htr, hct, hg, hss, hT⟩ :=
    processPacket_proj st s d i hlen
  rw [hpath, transmitHops_two_st] at hq hload hlk htr hct hg hss
  rw [hpath, transmitHops_two_st, transmitHops_two_ok] at hT
  obtain ⟨e1, e2, e3, e4, e5, e6, _, _, eQOK, eLOK, eVS, eTrue, eFalse,
    eForce, eOther, eSelf⟩ :=
    UL_effects st l1 (a ++ "-" ++ b) hlinks hl1 hkey1 hL hQ
  have hlinks1 : (updateLinkLoad st (a ++ "-" ++ b) 1).1.links = links0 :=
    e1.trans hlinks
  have hload2 : aGetD (updateLinkLoad st (a ++ "-" ++ b) 1).1.linkLoads
      (b ++ "-" ++ c) 0 = aGetD st.linkLoads (b ++ "-" ++ c) 0 :=
    eOther (b ++ "-" ++ c) hkk
  obtain ⟨f1, f2, f3, f4, f5, f6, _, _, fQOK, fLOK, fVS, fTrue, fFalse,
    fForce, fOther, fSelf⟩ :=
    UL_effects (updateLinkLoad st (a ++ "-" ++ b) 1).1 l2 (b ++ "-" ++ c)
      hlinks1 hl2 hkey2 eLOK eQOK
  have hok2 : (updateLinkLoad (updateLinkLoad st (a ++ "-" ++ b) 1).1
      (b ++ "-" ++ c) 1).2 = true := by
    refine fForce ?_
    rw [hload2]
    exact hforce
  obtain ⟨hq2, hl2eq⟩ := fTrue hok2
  refine ⟨⟨⟨hlk.trans (f1.trans e1), htr.trans (f2.trans e2),
    hct.trans (f3.trans e3), hg.trans (f4.trans e4),
    hss.trans (f5.trans e5)⟩, ?_, ?_, ?_⟩, ?_, ?_⟩
  · rw [hq]; exact fQOK
  · rw [hload]; exact fLOK
  · rw [Mval, Mval, hT, hq, f6, e6, hok2, hq2]
    cases hb : (updateLinkLoad st (a ++ "-" ++ b) 1).2 with
    | true =>
      have hq1 := (eTrue hb).1
      rw [hq1]
      simp only [Bool.true_and, if_pos rfl]
      omega
    | false =>
      have hv := (eFalse hb).1
      simp only [Bool.false_and]
      rw [if_neg (by simp)]
      omega
  · intro k hk1 hk2
    rw [hload, fOther k hk2]
    cases hb : (updateLinkLoad st (a ++ "-" ++ b) 1).2 with
    | true =>
      rw [(eTrue hb).2, aGetD_aSet_ne _ _ _ _ _ hk1]
    | false =>
      rw [(eFalse hb).2, aGetD_aSet_ne _ _ _ _ _ hk1]
  · rw [hload, hl2eq, aGetD_aSet_self, hload2]

theorem keyAB : ("A" ++ "-" ++ "B" : String) = "A-B" := rfl

theorem keyAC : ("A" ++ "-" ++ "C" : String) = "A-C" := rfl

theorem keyBD : ("B" ++ "-" ++ "D" : String) = "B-D" := rfl

theorem keyCD : ("C" ++ "-" ++ "D" : String) = "C-D" := rfl

theorem keyCE : ("C" ++ "-" ++ "E" : String) = "C-E" := rfl

theorem keyDE : ("D" ++ "-" ++ "E" : String) = "D-E" := rfl

/-- One generated packet from source `A` while A's two outgoing links are
still below 49 units: the tracked quantities move by at most one and the
`D-E` load is untouched. -/
theorem packetA (st : Sim) (r i : Nat)
    (hlinks : st.links = links0) (hL : LoadsOkM st.linkLoads)
    (hQ : QOKM st.queues)
    (hsum : aGetD st.linkLoads "A-B" 0 + aGetD st.linkLoads "A-C" 0 ≤ 49) :
    PktOut st (processPacket st "A" (getRandomDestination "A" r) i) ∧
    aGetD (processPacket st "A" (getRandomDestination "A" r) i).linkLoads
        "A-B" 0 +
      aGetD (processPacket st "A" (getRandomDestination "A" r) i).linkLoads
        "A-C" 0 ≤
      aGetD st.linkLoads "A-B" 0 + aGetD st.linkLoads "A-C" 0 + 1 ∧
    aGetD (processPacket st "A" (getRandomDestination "A" r) i).linkLoads
        "D-E" 0 =
      aGetD st.linkLoads "D-E" 0 := by
  have hAB0 := hL ⟨"A", "B", 100⟩ (by decide)
  have hAC0 := hL ⟨"A", "C", 80⟩ (by decide)
  rw [show linkKey (⟨"A", "B", 100⟩ : Link) = "A-B" from rfl] at hAB0
  rw [show linkKey (⟨"A", "C", 80⟩ : Link) = "A-C" from rfl] at hAC0
  rcases grd_A r with hd | hd | hd | hd <;> rw [hd]
  · have hpath : dijkstra nodes st.links "A" "B" = ["A", "B"] := by
      rw [hlinks]; decide
    obtain ⟨hout, hother, hself⟩ := pkt_one_fwd st "A" "B" "A" "B"
      ⟨"A", "B", 100⟩ i hlinks hL hQ hpath (by decide) (by decide)
    rw [keyAB] at hother hself
    refine ⟨hout, ?_, hother "D-E" (by decide)⟩
    rw [hother "A-C" (by decide)]
    omega
  · have hpath : dijkstra nodes st.links "A" "C" = ["A", "C"] := by
      rw [hlinks]; decide
    obtain ⟨hout, hother, hself⟩ := pkt_one_fwd st "A" "C" "A" "C"
      ⟨"A", "C", 80⟩ i hlinks hL hQ hpath (by decide) (by decide)
    rw [keyAC] at hother hself
    refine ⟨hout, ?_, hother "D-E" (by decide)⟩
    rw [hother "A-B" (by decide)]
    omega
  · have hpath : dijkstra nodes st.links "A" "D" = ["A", "B", "D"] := by
      rw [hlinks]; decide
    obtain ⟨hout, hother, hfst⟩ := pkt_two_fwd_first st "A" "D" "A" "B" "D"
      ⟨"A", "B", 100⟩ ⟨"B", "D", 70⟩ i hlinks hL hQ hpath (by decide)
      (by decide) (by decide) (by decide) (by decide)
      (by show aGetD st.linkLoads "A-B" 0 + 1 ≤ (100 : Int); omega)
    rw [keyAB] at hother hfst
    simp only [keyBD] at hother
    refine ⟨hout, ?_, hother "D-E" (by decide) (by decide)⟩
    rw [hfst, hother "A-C" (by decide) (by decide)]
    omega
  · have hpath : dijkstra nodes st.links "A" "E" = ["A", "C", "E"] := by
      rw [hlinks]; decide
    obtain ⟨hout, hother, hfst⟩ := pkt_two_fwd_first st "A" "E" "A" "C" "E"
      ⟨"A", "C", 80⟩ ⟨"C", "E", 100⟩ i hlinks hL hQ hpath (by decide)
      (by decide) (by decide) (by decide) (by decide)
      (by show aGetD st.linkLoads "A-C" 0 + 1 ≤ (80 : Int); omega)
    rw [keyAC] at hother hfst
    simp only [keyCE] at hother
    refine ⟨hout, ?_, hother "D-E" (by decide) (by decide)⟩
    rw [hfst, hother "A-B" (by decide) (by decide)]
    omega

/-- One generated packet from source `B` while the `D-E` load is below 29:
the tracked quantities move by at most one and the `D-E` load grows by at
most one. -/
theorem packetB (st : Sim) (r i : Nat)
    (hlinks : st.links = links0) (hL : LoadsOkM st.linkLoads)
    (hQ : QOKM st.queues)
    (hDE : aGetD st.linkLoads "D-E" 0 ≤ 29) :
    PktOut st (processPacket st "B" (getRandomDestination "B" r) i) ∧
    aGetD (processPacket st "B" (getRandomDestination "B" r) i).linkLoads
        "D-E" 0 ≤
      aGetD st.linkLoads "D-E" 0 + 1 := by
  rcases grd_B r with hd | hd | hd | hd <;> rw [hd]
  · have hpath : dijkstra nodes st.links "B" "A" = ["B", "A"] := by
      rw [hlinks]; decide
    obtain ⟨hout, heq⟩ := pkt_one_miss st "B" "A" "B" "A" i hlinks hL hQ
      hpath (by decide)
    refine ⟨hout, ?_⟩
    rw [heq]
    omega
  · have hpath : dijkstra nodes st.links "B" "C" = ["B", "A", "C"] := by
      rw [hlinks]; decide
    obtain ⟨hout, hother, _⟩ := pkt_two_miss_fwd st "B" "C" "B" "A" "C"
      ⟨"A", "C", 80⟩ i hlinks hL hQ hpath (by decide) (by decide) (by decide)
    rw [keyAC] at hother
    rw [hother "D-E" (by decide)]
    exact ⟨hout, by omega⟩
  · have hpath : dijkstra nodes st.links "B" "D" = ["B", "D"] := by
      rw [hlinks]; decide
    obtain ⟨hout, hother, _⟩ := pkt_one_fwd st "B" "D" "B" "D"
      ⟨"B", "D", 70⟩ i hlinks hL hQ hpath (by decide) (by decide)
    rw [keyBD] at hother
    rw [hother "D-E" (by decide)]
    exact ⟨hout, by omega⟩
  · have hpath : dijkstra nodes st.links "B" "E" = ["B", "D", "E"] := by
      rw [hlinks]; decide
    obtain ⟨hout, _, hsnd⟩ := pkt_two_fwd_second st "B" "E" "B" "D" "E"
      ⟨"B", "D", 70⟩ ⟨"D", "E", 60⟩ i hlinks hL hQ hpath (by decide)
      (by decide) (by decide) (by decide) (by decide)
      (by show aGetD st.linkLoads "D-E" 0 + 1 ≤ (60 : Int); omega)
    rw [keyDE] at hsnd
    exact ⟨hout, hsnd⟩

/-- One generated packet from source `C`: the tracked quantities move by at
most one. -/
theorem packetC (st : Sim) (r i : Nat)
    (hlinks : st.links = links0) (hL : LoadsOkM st.linkLoads)
    (hQ : QOKM st.queues) :
    PktOut st (processPacket st "C" (getRandomDestination "C" r) i) := by
  rcases grd_C r with hd | hd | hd | hd <;> rw [hd]
  · have hpath : dijkstra nodes st.links "C" "A" = ["C", "A"] := by
      rw [hlinks]; decide
    exact (pkt_one_miss st "C" "A" "C" "A" i hlinks hL hQ hpath
      (by decide)).1
  · have hpath : dijkstra nodes st.links "C" "B" = ["C", "A", "B"] := by
      rw [hlinks]; decide
    exact (pkt_two_miss_fwd st "C" "B" "C" "A" "B" ⟨"A", "B", 100⟩ i hlinks
      hL hQ hpath (by decide) (by decide) (by decide)).1
  · have hpath : dijkstra nodes st.links "C" "D" = ["C", "D"] := by
      rw [hlinks]; decide
    exact (pkt_one_fwd st "C" "D" "C" "D" ⟨"C", "D", 90⟩ i hlinks hL hQ
      hpath (by decide) (by decide)).1
  · have hpath : dijkstra nodes st.links "C" "E" = ["C", "E"] := by
      rw [hlinks]; decide
    exact (pkt_one_fwd st "C" "E" "C" "E" ⟨"C", "E", 100⟩ i hlinks hL hQ
      hpath (by decide) (by decide)).1

/-- One generated packet from source `D`: the tracked quantities move by at
most one. -/
theorem packetD (st : Sim) (r i : Nat)
    (hlinks : st.links = links0) (hL : LoadsOkM st.linkLoads)
    (hQ : QOKM st.queues) :
    PktOut st (processPacket st "D" (getRandomDestination "D" r) i) := by
  rcases grd_D r with hd | hd | hd | hd <;> rw [hd]
  · have hpath : dijkstra nodes st.links "D" "A" = ["D", "B", "A"] := by
      rw [hlinks]; decide
    exact (pkt_two_miss_miss st "D" "A" "D" "B" "A" i hlinks hL hQ hpath
      (by decide) (by decide)).1
  · have hpath : dijkstra nodes st.links "D" "B" = ["D", "B"] := by
      rw [hlinks]; decide
    exact (pkt_one_miss st "D" "B" "D" "B" i hlinks hL hQ hpath
      (by decide)).1
  · have hpath : dijkstra nodes st.links "D" "C" = ["D", "C"] := by
      rw [hlinks]; decide
    exact (pkt_one_miss st "D" "C" "D" "C" i hlinks hL hQ hpath
      (by decide)).1
  · have hpath : dijkstra nodes st.links "D" "E" = ["D", "E"] := by
      rw [hlinks]; decide
    exact (pkt_one_fwd st "D" "E" "D" "E" ⟨"D", "E", 60⟩ i hlinks hL hQ
      hpath (by decide) (by decide)).1

/-- One generated packet from source `E`: every hop of every possible path
is a reverse-direction key, so nothing tracked changes. -/
theorem packetE (st : Sim) (r i : Nat)
    (hlinks : st.links = links0) (hL : LoadsOkM st.linkLoads)
    (hQ : QOKM st.queues) :
    PktOut st (processPacket st "E" (getRandomDestination "E" r) i) := by
  rcases grd_E r with hd | hd | hd | hd <;> rw [hd]
  · have hpath : dijkstra nodes st.links "E" "A" = ["E", "C", "A"] := by
      rw [hlinks]; decide
    exact (pkt_two_miss_miss st "E" "A" "E" "C" "A" i hlinks hL hQ hpath
      (by decide) (by decide)).1
  · have hpath : dijkstra nodes st.links "E" "B" = ["E", "D", "B"] := by
      rw [hlinks]; decide
    exact (pkt_two_miss_miss st "E" "B" "E" "D" "B" i hlinks hL hQ hpath
      (by decide) (by decide)).1
  · have hpath : dijkstra nodes st.links "E" "C" = ["E", "C"] := by
      rw [hlinks]; decide
    exact (pkt_one_miss st "E" "C" "E" "C" i hlinks hL hQ hpath
      (by decide)).1
  · have hpath : dijkstra nodes st.links "E" "D" = ["E", "D"] := by
      rw [hlinks]; decide
    exact (pkt_one_miss st "E" "D" "E" "D" i hlinks hL hQ hpath
      (by decide)).1

theorem packetStep_eq (rng : Nat → Nat) (s : String) (st : Sim) (k i : Nat) :
    packetStep rng s (st, k) i =
      (processPacket st s (getRandomDestination s (rng k)) i, k + 1) := rfl

/-- Generic generation loop bound for a source whose per-packet step needs
no load tracking (sources C, D and E). -/
theorem loop_simple (rng : Nat → Nat) (s : String)
    (hpkt : ∀ (st : Sim) (r i : Nat), st.links = links0 →
      LoadsOkM st.linkLoads → QOKM st.queues →
      PktOut st (processPacket st s (getRandomDestination s r) i)) :
    ∀ (is : List Nat) (st : Sim) (k : Nat), st.links = links0 →
      LoadsOkM st.linkLoads → QOKM st.queues →
      GFrame st (is.foldl (packetStep rng s) (st, k)).1 ∧
      QOKM (is.foldl (packetStep rng s) (st, k)).1.queues ∧
      LoadsOkM (is.foldl (packetStep rng s) (st, k)).1.linkLoads ∧
      Mval (is.foldl (packetStep rng s) (st, k)).1 ≤
        Mval st + (is.length : Int) := by
  intro is
  induction is with
  | nil =>
    intro st k hlinks hL hQ
    exact ⟨gframe_refl st, hQ, hL, by simp⟩
  | cons i is ih =>
    intro st k hlinks hL hQ
    rw [List.foldl_cons, packetStep_eq]
    obtain ⟨hGF, hQOK1, hLOK1, hM1⟩ := hpkt st (rng k) i hlinks hL hQ
    obtain ⟨iGF, iQOK, iLOK, iM⟩ :=
      ih (processPacket st s (getRandomDestination s (rng k)) i) (k + 1)
        (hGF.1.trans hlinks) hLOK1 hQOK1
    refine ⟨gframe_trans _ _ _ hGF iGF, iQOK, iLOK, ?_⟩
    have hlen : ((i :: is).length : Int) = (is.length : Int) + 1 := by
      simp
    rw [hlen]
    omega

/-- Generation loop bound for source A: additionally tracks that the
combined `A-B`/`A-C` load grows by at most the number of packets and that
the `D-E` load is untouched. -/
theorem loopA (rng : Nat → Nat) :
    ∀ (is : List Nat) (st : Sim) (k : Nat), st.links = links0 →
      LoadsOkM st.linkLoads → QOKM st.queues →
      aGetD st.linkLoads "A-B" 0 + aGetD st.linkLoads "A-C" 0 +
        (is.length : Int) ≤ 50 →
      GFrame st (is.foldl (packetStep rng "A") (st, k)).1 ∧
      QOKM (is.foldl (packetStep rng "A") (st, k)).1.queues ∧
      LoadsOkM (is.foldl (packetStep rng "A") (st, k)).1.linkLoads ∧
      Mval (is.foldl (packetStep rng "A") (st, k)).1 ≤
        Mval st + (is.length : Int) ∧
      aGetD (is.foldl (packetStep rng "A") (st, k)).1.linkLoads "D-E" 0 =
        aGetD st.linkLoads "D-E" 0 := by
  intro is
  induction is with
  | nil =>
    intro st k hlinks hL hQ _
    exact ⟨gframe_refl st, hQ, hL, by simp, rfl⟩
  | cons i is ih =>
    intro st k hlinks hL hQ hsum
    rw [List.foldl_cons, packetStep_eq]
    have hlen : ((i :: is).length : Int) = (is.length : Int) + 1 := by simp
    rw [hlen] at hsum ⊢
    obtain ⟨⟨hGF, hQOK1, hLOK1, hM1⟩, hsum1, hDE1⟩ :=
      packetA st (rng k) i hlinks hL hQ (by omega)
    obtain ⟨iGF, iQOK, iLOK, iM, iDE⟩ :=
      ih (processPacket st "A" (getRandomDestination "A" (rng k)) i) (k + 1)
        (hGF.1.trans hlinks) hLOK1 hQOK1 (by omega)
    refine ⟨gframe_trans _ _ _ hGF iGF, iQOK, iLOK, by omega, ?_⟩
    rw [iDE, hDE1]

/-- Generation loop bound for source B: additionally tracks that the `D-E`
load grows by at most the number of packets. -/
theorem loopB (rng : Nat → Nat) :
    ∀ (is : List Nat) (st : Sim) (k : Nat), st.links = links0 →
      LoadsOkM st.linkLoads → QOKM st.queues →
      aGetD st.linkLoads "D-E" 0 + (is.length : Int) ≤ 30 →
      GFrame st (is.foldl (packetStep rng "B") (st, k)).1 ∧
      QOKM (is.foldl (packetStep rng "B") (st, k)).1.queues ∧
      LoadsOkM (is.foldl (packetStep rng "B") (st, k)).1.linkLoads ∧
      Mval (is.foldl (packetStep rng "B") (st, k)).1 ≤
        Mval st + (is.length : Int) := by
  intro is
  induction is with
  | nil =>
    intro st k hlinks hL hQ _
    exact ⟨gframe_refl st, hQ, hL, by simp⟩
  | cons i is ih =>
    intro st k hlinks hL hQ hDE
    rw [List.foldl_cons, packetStep_eq]
    have hlen : ((i :: is).length : Int) = (is.length : Int) + 1 := by simp
    rw [hlen] at hDE ⊢
    obtain ⟨⟨hGF, hQOK1, hLOK1, hM1⟩, hDE1⟩ :=
      packetB st (rng k) i hlinks hL hQ (by omega)
    obtain ⟨iGF, iQOK, iLOK, iM⟩ :=
      ih (processPacket st "B" (getRandomDestination "B" (rng k)) i) (k + 1)
        (hGF.1.trans hlinks) hLOK1 hQOK1 (by omega)
    exact ⟨gframe_trans _ _ _ hGF iGF, iQOK, iLOK, by omega⟩

theorem gframe_bump (st : Sim) (source : String) (rate : Int) :
    GFrame st (bumpGenerated st source rate) := ⟨rfl, rfl, rfl, rfl, rfl⟩

/-- Source-A phase of a default tick: starting from clean loads, quantities
grow by at most 50 and the `D-E` load stays untouched. -/
theorem sourceA_spec (rng : Nat → Nat) (st : Sim) (k : Nat)
    (hlinks : st.links = links0) (hL : LoadsOkM st.linkLoads)
    (hQ : QOKM st.queues)
    (hsum : aGetD st.linkLoads "A-B" 0 + aGetD st.linkLoads "A-C" 0 + 50 ≤ 50) :
    GFrame st (processSource rng "A" 50 st k).1 ∧
    QOKM (processSource rng "A" 50 st k).1.queues ∧
    LoadsOkM (processSource rng "A" 50 st k).1.linkLoads ∧
    Mval (processSource rng "A" 50 st k).1 ≤ Mval st + 50 ∧
    aGetD (processSource rng "A" 50 st k).1.linkLoads "D-E" 0 =
      aGetD st.linkLoads "D-E" 0 := by
  have hlen : (((List.range (Int.toNat 50)).length : Nat) : Int) = 50 := by
    simp
  obtain ⟨iGF, iQOK, iLOK, iM, iDE⟩ :=
    loopA rng (List.range (Int.toNat 50)) (bumpGenerated st "A" 50) k
      hlinks hL hQ
      (by
        show aGetD st.linkLoads "A-B" 0 + aGetD st.linkLoads "A-C" 0 +
          (((List.range (Int.toNat 50)).length : Nat) : Int) ≤ 50
        rw [hlen]
        exact hsum)
  have hMb : Mval (bumpGenerated st "A" 50) = Mval st := rfl
  exact ⟨gframe_trans _ _ _ (gframe_bump st "A" 50) iGF, iQOK, iLOK,
    le_trans iM (by rw [hMb, hlen]), iDE.trans rfl⟩

/-- Source-B phase of a default tick: with the `D-E` load still clean,
quantities grow by at most 30. -/
theorem sourceB_spec (rng : Nat → Nat) (st : Sim) (k : Nat)
    (hlinks : st.links = links0) (hL : LoadsOkM st.linkLoads)
    (hQ : QOKM st.queues)
    (hDE : aGetD st.linkLoads "D-E" 0 + 30 ≤ 30) :
    GFrame st (processSource rng "B" 30 st k).1 ∧
    QOKM (processSource rng "B" 30 st k).1.queues ∧
    LoadsOkM (processSource rng "B" 30 st k).1.linkLoads ∧
    Mval (processSource rng "B" 30 st k).1 ≤ Mval st + 30 := by
  have hlen : (((List.range (Int.toNat 30)).length : Nat) : Int) = 30 := by
    simp
  obtain ⟨iGF, iQOK, iLOK, iM⟩ :=
    loopB rng (List.range (Int.toNat 30)) (bumpGenerated st "B" 30) k
      hlinks hL hQ
      (by
        show aGetD st.linkLoads "D-E" 0 +
          (((List.range (Int.toNat 30)).length : Nat) : Int) ≤ 30
        rw [hlen]
        exact hDE)
  have hMb : Mval (bumpGenerated st "B" 30) = Mval st := rfl
  exact ⟨gframe_trans _ _ _ (gframe_bump st "B" 30) iGF, iQOK, iLOK,
    le_trans iM (by rw [hMb, hlen])⟩

/-- Phase of a default tick for a source with no load tracking (C, D, E):
quantities grow by at most the rate. -/
theorem source_simple_spec (rng : Nat → Nat) (s : String) (rate : Int)
    (hr : 0 ≤ rate)
    (hpkt : ∀ (st : Sim) (r i : Nat), st.links = links0 →
      LoadsOkM st.linkLoads → QOKM st.queues →
      PktOut st (processPacket st s (getRandomDestination s r) i))
    (st : Sim) (k : Nat)
    (hlinks : st.links = links0) (hL : LoadsOkM st.linkLoads)
    (hQ : QOKM st.queues) :
    GFrame st (processSource rng s rate st k).1 ∧
    QOKM (processSource rng s rate st k).1.queues ∧
    LoadsOkM (processSource rng s rate st k).1.linkLoads ∧
    Mval (processSource rng s rate st k).1 ≤ Mval st + rate := by
  have hlen : (((List.range rate.toNat).length : Nat) : Int) = rate := by
    simp
    omega
  obtain ⟨iGF, iQOK, iLOK, iM⟩ :=
    loop_simple rng s hpkt (List.range rate.toNat)
      (bumpGenerated st s rate) k hlinks hL hQ
  have hMb : Mval (bumpGenerated st s rate) = Mval st := rfl
  exact ⟨gframe_trans _ _ _ (gframe_bump st s rate) iGF, iQOK, iLOK,
    le_trans iM (by rw [hMb, hlen])⟩

theorem sum_map_sub {α : Type} (m : List α) (f g : α → Int) :
    (m.map (fun e => f e - g e)).sum = (m.map f).sum - (m.map g).sum := by
  induction m with
  | nil => simp
  | cons e m ih =>
    simp only [List.map_cons, List.sum_cons, ih]
    ring

theorem drainAmt_sub_nonneg (links : List Link) (k : String) (q : Int)
    (h : 0 ≤ q) : 0 ≤ q - drainAmt links k q := by
  rw [drainAmt]
  split
  · cases hf : links.find? (fun l => linkKey l == k) with
    | some l =>
      simp only [hf]
      have := min_le_left q l.capacity
      omega
    | none =>
      simp only [hf]
      omega
  · omega

theorem loadsOkM_nil : LoadsOkM ([] : JObj Int) := by
  intro l hl
  have := links0_cap_pos l hl
  constructor
  · exact le_refl 0
  · show (0 : Int) ≤ l.capacity
    omega

theorem drain_QOK (m : JObj Int) (links : List Link) (h : QOKM m) :
    QOKM (m.map (fun e => (e.1, e.2 - drainAmt links e.1 e.2))) := by
  constructor
  · have hkeys : (m.map (fun e => (e.1, e.2 - drainAmt links e.1 e.2))).map
        (fun e => e.1) = m.map (fun e => e.1) := by
      rw [List.map_map]
      rfl
    rw [hkeys]
    exact h.1
  · intro e' he'
    rw [List.mem_map] at he'
    obtain ⟨e, he, rfl⟩ := he'
    exact drainAmt_sub_nonneg links e.1 e.2 (h.2 e he)

theorem valSum_drained (m : JObj Int) (links : List Link) :
    valSum (m.map (fun e => (e.1, e.2 - drainAmt links e.1 e.2))) =
      valSum m - (m.map (fun e => drainAmt links e.1 e.2)).sum := by
  rw [valSum, List.map_map]
  have hcomp : ((fun e => e.2) ∘
      (fun (e : String × Int) => (e.1, e.2 - drainAmt links e.1 e.2))) =
      fun e => e.2 - drainAmt links e.1 e.2 := rfl
  rw [hcomp, sum_map_sub m (fun e => e.2) (fun e => drainAmt links e.1 e.2)]
  rfl

/-- The inductive invariant for claim C1. -/
def TickInv (st : Sim) : Prop :=
  st.links = links0 ∧ st.trafficRates = trafficRates0 ∧
  st.currentTime = "08:00" ∧ QOKM st.queues ∧
  Mval st ≤ st.totalPacketsGenerated

theorem tick_preserves (rng : Nat → Nat) (st : Sim) (h : TickInv st) :
    TickInv (simulateTick rng st) := by
  obtain ⟨hlinks, hrates, htime, hQ, hM⟩ := h
  have hrow : aGet st.trafficRates st.currentTime =
      some [("A", (50 : Int)), ("B", 30), ("C", 40), ("D", 20), ("E", 60)] := by
    rw [hrates, htime]
    rfl
  simp only [simulateTick, hrow, processSources, List.foldl_cons,
    List.foldl_nil]
  set st1 : Sim := { st with linkLoads := [], packetStats := [] } with hst1
  set st2 : Sim := processQueuedPackets st1 with hst2
  -- facts about st1
  have hq1 : st1.queues = st.queues := by rw [hst1]
  have hl1 : st1.linkLoads = [] := by rw [hst1]
  -- drain characterisation
  obtain ⟨dQ, dT, dF⟩ := drain_spec st1 (by rw [hq1]; exact hQ.1)
  rw [← hst2] at dQ dT dF
  have hlinks2 : st2.links = links0 := by
    rw [dF.1, hst1]
    exact hlinks
  have hload2 : st2.linkLoads = [] := by
    rw [dF.2.2.2.2.2.1]
  have hQOK2 : QOKM st2.queues := by
    rw [dQ, hq1]
    exact drain_QOK st.queues st1.links hQ
  have hM2 : Mval st2 = Mval st := by
    rw [Mval, Mval, dT, dQ, valSum_drained, hq1]
    have h1 : st1.totalPacketsTransmitted = st.totalPacketsTransmitted := by
      rw [hst1]
    rw [h1]
    ring
  have hG2 : st2.totalPacketsGenerated = st.totalPacketsGenerated := by
    rw [dF.2.2.2.2.2.2.2.2, hst1]
  have htr2 : st2.trafficRates = trafficRates0 := by
    rw [dF.2.1, hst1]
    exact hrates
  have hct2 : st2.currentTime = "08:00" := by
    rw [dF.2.2.1, hst1]
    exact htime
  -- phase A
  set sA : Sim × Nat := processSource rng "A" 50 st2 0 with hsA
  obtain ⟨aGF, aQOK, aLOK, aM, aDE⟩ :=
    sourceA_spec rng st2 0 hlinks2 (by rw [hload2]; exact loadsOkM_nil)
      hQOK2 (by rw [hload2]; decide)
  rw [← hsA] at aGF aQOK aLOK aM aDE
  -- phase B
  set sB : Sim × Nat := processSource rng "B" 30 sA.1 sA.2 with hsB
  obtain ⟨bGF, bQOK, bLOK, bM⟩ :=
    sourceB_spec rng sA.1 sA.2 (aGF.1.trans hlinks2) aLOK aQOK
      (by rw [aDE, hload2]; decide)
  rw [← hsB] at bGF bQOK bLOK bM
  -- phase C
  set sC : Sim × Nat := processSource rng "C" 40 sB.1 sB.2 with hsC
  obtain ⟨cGF, cQOK, cLOK, cM⟩ :=
    source_simple_spec rng "C" 40 (by decide) packetC sB.1 sB.2
      (bGF.1.trans (aGF.1.trans hlinks2)) bLOK bQOK
  rw [← hsC] at cGF cQOK cLOK cM
  -- phase D
  set sD : Sim × Nat := processSource rng "D" 20 sC.1 sC.2 with hsD
  obtain ⟨dGF2, dQOK2, dLOK2, dM2⟩ :=
    source_simple_spec rng "D" 20 (by decide) packetD sC.1 sC.2
      (cGF.1.trans (bGF.1.trans (aGF.1.trans hlinks2))) cLOK cQOK
  rw [← hsD] at dGF2 dQOK2 dLOK2 dM2
  -- phase E
  set sE : Sim × Nat := processSource rng "E" 60 sD.1 sD.2 with hsE
  obtain ⟨eGF, eQOK, eLOK, eM⟩ :=
    source_simple_spec rng "E" 60 (by decide) packetE sD.1 sD.2
      (dGF2.1.trans (cGF.1.trans (bGF.1.trans (aGF.1.trans hlinks2))))
      dLOK2 dQOK2
  rw [← hsE] at eGF eQOK eLOK eM
  -- assemble
  have hlkE : sE.1.links = links0 := by
    rw [eGF.1, dGF2.1, cGF.1, bGF.1, aGF.1]
    exact hlinks2
  have htrE : sE.1.trafficRates = trafficRates0 := by
    rw [eGF.2.1, dGF2.2.1, cGF.2.1, bGF.2.1, aGF.2.1]
    exact htr2
  have hctE : sE.1.currentTime = "08:00" := by
    rw [eGF.2.2.1, dGF2.2.2.1, cGF.2.2.1, bGF.2.2.1, aGF.2.2.1]
    exact hct2
  have hGE : sE.1.totalPacketsGenerated = st.totalPacketsGenerated := by
    rw [eGF.2.2.2.1, dGF2.2.2.2.1, cGF.2.2.2.1, bGF.2.2.2.1, aGF.2.2.2.1]
    exact hG2
  refine ⟨hlkE, htrE, hctE, eQOK, ?_⟩
  show Mval sE.1 ≤ sE.1.totalPacketsGenerated + (0 + 50 + 30 + 40 + 20 + 60)
  rw [hGE]
  omega

/-- C1: for every sequence of `simulateTick` calls from the initial state
(default positive link capacities, default nonnegative rates), the
cumulative transmitted counter never exceeds the cumulative generated
counter. -/
theorem C1_transmitted_le_generated (rngs : Nat → Nat → Nat) (n : Nat) :
    (runTicks rngs n initState).totalPacketsTransmitted ≤
      (runTicks rngs n initState).totalPacketsGenerated := by
  have hInv : ∀ (m : Nat) (st : Sim), TickInv st →
      TickInv (runTicks rngs m st) := by
    intro m
    induction m with
    | zero => intro st h; exact h
    | succ m ih =>
      intro st h
      exact ih _ (tick_preserves (rngs m) st h)
  have h0 : TickInv initState :=
    ⟨rfl, rfl, rfl, ⟨by decide, by decide⟩, by decide⟩
  obtain ⟨_, _, _, hQ, hM⟩ := hInv n initState h0
  have hvs : 0 ≤ valSum (runTicks rngs n initState).queues :=
    valSum_nonneg _ hQ.2
  rw [Mval] at hM
  omega
